import Mathlib

/-!
Verification of the CanvasBeaver grade-processing engine
(`src/canvas/grade_processor.py`, data model from `src/canvas/gradebook.py`).

Shallow embedding conventions:
* Python floats are modelled as exact rationals (`ℚ`).  All comparisons and
  arithmetic performed by the source on floats are carried out exactly.
* Python dicts are modelled as association lists in insertion order; the
  source only ever builds dicts with distinct keys, and theorems that depend
  on key uniqueness state it as a `Nodup` hypothesis.
* `statistics.stdev` (the sample standard deviation) returns an irrational
  square root, so every comparison the source makes against it is encoded by
  the equivalent comparison of the sample variance: `stdev > c` (with
  `c ≥ 0`) is embedded as `variance > c^2`, and `z_score > 2` (guarded by
  `stdev > 0` in the source) as `avg - mean > 0 ∧ (avg - mean)^2 > 4 * variance`.
* Human-readable finding strings interpolate numbers with Python `%`
  formatting; the embedding renders the same numeric components exactly
  (`toString` on `ℚ`), which is irrelevant to every property proved here.
* Python exceptions are modelled with `Except`; `BadGradeTypesWeight` is the
  `Except.error` case of `mkGradeConfiguration`.
-/

/-! ### Generic helpers: ordered-dict primitives, string order, statistics -/

/-- Models `dict.get(k)` on an association list (first matching key). -/
def lookupKey {κ α : Type} [DecidableEq κ] (k : κ) : List (κ × α) → Option α
  | [] => none
  | p :: rest => if p.1 = k then some p.2 else lookupKey k rest

/-- Models `d[k] = v` on an insertion-ordered dict: replace in place or append. -/
def dictUpd {κ α : Type} [DecidableEq κ] : List (κ × α) → κ → α → List (κ × α)
  | [], k, v => [(k, v)]
  | p :: rest, k, v => if p.1 = k then (p.1, v) :: rest else p :: dictUpd rest k v

/-- Models `l[n]` as an option (Python indexing, total form). -/
def nth {α : Type} : List α → Nat → Option α
  | [], _ => none
  | a :: _, 0 => some a
  | _ :: t, n + 1 => nth t n

/-- Occurrence count of an element in a list (multiplicity). -/
def countOcc {α : Type} [DecidableEq α] (a : α) : List α → Nat
  | [] => 0
  | b :: t => (if b = a then 1 else 0) + countOcc a t

/-- Python `<` on single characters: compare code points. -/
def charLt (a b : Char) : Bool := decide (a.toNat < b.toNat)

/-- Python `<` on strings viewed as char lists: lexicographic by code point. -/
def listStrLt : List Char → List Char → Bool
  | [], [] => false
  | [], _ :: _ => true
  | _ :: _, [] => false
  | a :: as, b :: bs => if charLt a b then true else if charLt b a then false else listStrLt as bs

/-- Python `s1 < s2` on strings. -/
def strLt (a b : String) : Bool := listStrLt a.toList b.toList

/-- Whether `needle` occurs at the start of `hay` (helper for substring test). -/
def leadsWith : List Char → List Char → Bool
  | [], _ => true
  | _ :: _, [] => false
  | a :: as, b :: bs => a == b && leadsWith as bs

/-- Whether `needle` occurs anywhere in `hay`. -/
def hasSub (needle : List Char) : List Char → Bool
  | [] => needle.isEmpty
  | c :: rest => leadsWith needle (c :: rest) || hasSub needle rest

/-- Python `needle in hay` on strings. -/
def strContainsSub (hay needle : String) : Bool := hasSub needle.toList hay.toList

/-- Models `statistics.mean` over exact rationals. -/
def listMean (l : List ℚ) : ℚ := l.sum / (l.length : ℚ)

/-- The sample variance (square of `statistics.stdev`), denominator `n - 1`. -/
def sampleVar (l : List ℚ) : ℚ :=
  ((l.map (fun x => (x - listMean l) ^ 2)).sum) / ((l.length : ℚ) - 1)

/-! ### Data model (gradebook.py) -/

/-- Models `gradebook.Assignment`. -/
structure Assignment where
  id : Nat
  name : String
  points_possible : Option ℚ := none
  due_at : Option String := none
  assignment_group_id : Option Nat := none
deriving DecidableEq

/-- Models `gradebook.StudentScore`.  The Python `excused` field is `Optional[bool]`
and is only ever used for truthiness, so `None` and `False` coincide. -/
structure StudentScore where
  assignment_id : Nat
  score : Option ℚ := none
  points_possible : Option ℚ := none
  excused : Bool := false
deriving DecidableEq

/-- Models `gradebook.StudentSummary`; `scores` is an insertion-ordered dict keyed by
assignment id. -/
structure StudentSummary where
  id : Nat
  name : Option String := none
  login : Option String := none
  email : Option String := none
  scores : List (Nat × StudentScore) := []
  total_score : ℚ := 0
  total_points : ℚ := 0
deriving DecidableEq

/-- Models `gradebook.Gradebook`: assignment catalog (ordered dict by id) and roster
(dict values in insertion order). -/
structure Gradebook where
  assignments : List (Nat × Assignment) := []
  students : List StudentSummary := []
deriving DecidableEq

/-! ### GradeConfiguration (grade_processor.py lines 44-89) -/

/-- Models `grade_processor.GradeConfiguration` after successful construction. -/
structure GradeConfiguration where
  grade_types : List (String × ℚ)
  allow_partial : Bool
deriving DecidableEq

/-- Models `GradeConfiguration.total_weight`. -/
def GradeConfiguration.totalWeight (c : GradeConfiguration) : ℚ :=
  (c.grade_types.map Prod.snd).sum

/-- Models `GradeConfiguration.weight_for_type` (`.get(name, 0.0)`). -/
def GradeConfiguration.weightFor (c : GradeConfiguration) (t : String) : ℚ :=
  (lookupKey t c.grade_types).getD 0

/-- The tolerance `1e-8` used by the constructor. -/
def weightTolerance : ℚ := 1 / 100000000

/-- Models `GradeConfiguration.__init__`: the three validation checks, in source
order.  An `Except.error` models a raised `BadGradeTypesWeight`; the partial
branch only prints a note and is not an error. -/
def mkGradeConfiguration (gradeTypes : List (String × ℚ)) (allowPartial : Bool) :
    Except String GradeConfiguration :=
  let total := (gradeTypes.map Prod.snd).sum
  if 1 + weightTolerance < total then
    Except.error "Grade type weights cannot exceed 1.0"
  else if total < weightTolerance then
    Except.error "Grade type weights must sum to greater than 0"
  else if allowPartial = false ∧ weightTolerance < |total - 1| then
    Except.error "Grade type weights expected to sum to 1.0"
  else
    Except.ok { grade_types := gradeTypes, allow_partial := allowPartial }

/-- Whether construction succeeded (no `BadGradeTypesWeight` raised). -/
def configOk : Except String GradeConfiguration → Bool
  | Except.ok _ => true
  | Except.error _ => false

/-! ### Letter grade resolver (grade_processor.py lines 106-158) -/

/-- Order on scale entries used by `sorted(scale.items())` (keys are distinct
dict keys, so sorting by key matches Python tuple sorting). -/
def keyLE (a b : ℚ × String) : Prop := a.1 ≤ b.1

instance : DecidableRel keyLE := fun a b => inferInstanceAs (Decidable (a.1 ≤ b.1))

instance : IsTotal (ℚ × String) keyLE := ⟨fun a b => le_total a.1 b.1⟩

instance : IsTrans (ℚ × String) keyLE := ⟨fun _ _ _ h1 h2 => le_trans h1 h2⟩

/-- Models `sorted_items = sorted(scale.items())`. -/
def sortScale (scale : List (ℚ × String)) : List (ℚ × String) :=
  List.insertionSort keyLE scale

/-- Models `letter_grade(percentage, scale)`.  `bisect(breakpoints, percentage)` on
the sorted breakpoints equals the number of entries with threshold `≤`
percentage; the index clamp `max(0, min(i - 1, len - 1))` is `Nat`
subtraction plus `min` (the source's final `percentage < breakpoints[0]`
special case is subsumed: there `i = 0` already yields index 0).  `none`
models the `IndexError` an empty scale would raise. -/
def letterGrade (percentage : ℚ) (scale : List (ℚ × String)) : Option String :=
  let sorted := sortScale scale
  let i := (sorted.filter (fun e => decide (e.1 ≤ percentage))).length
  (nth sorted (min (i - 1) (sorted.length - 1))).map Prod.snd

/-! ### Grade results (grade_processor.py lines 161-186) -/

/-- Models `grade_processor.GradeTypeResult`; `assignments` is the ordered dict
name ↦ (fraction, points). -/
structure GradeTypeResult where
  type_name : String
  assignments : List (String × ℚ × ℚ)
  average_percentage : ℚ
  contribution_to_total : ℚ
  num_assignments : Nat
  dropped : Option (String × ℚ × ℚ) := none
deriving DecidableEq

/-- Models `grade_processor.ProcessedStudent`.  `letter_grade` is optional only to
model the exception an empty scale would raise inside `letter_grade`. -/
structure ProcessedStudent where
  user_id : Nat
  name : String
  email : Option String := none
  mit_id : Option String := none
  grade_types : List (String × GradeTypeResult) := []
  final_percentage : ℚ := 0
  normalized_percentage : ℚ := 0
  letter_grade : Option String := none
  modified_letter_grade : Option String := none
  anomalies : List String := []
  weight_normalization_factor : ℚ := 1
deriving DecidableEq

/-! ### Graded-assignment identification and weight normalization
(grade_processor.py lines 347-392) -/

/-- The per-score test inside `_identify_graded_assignments`: non-excused,
non-null score strictly greater than zero. -/
def scoreCountsAsGraded (sc : StudentScore) : Bool :=
  !sc.excused && (match sc.score with | some s => decide (0 < s) | none => false)

/-- Models `_identify_graded_assignments`: assignment ids for which some student has
a counting score.  (The source collects a set; this list's membership is that
set's membership.) -/
def identifyGradedAssignments (gb : Gradebook) : List Nat :=
  (gb.assignments.map Prod.fst).filter (fun aid =>
    gb.students.any (fun stu =>
      match lookupKey aid stu.scores with
      | some sc => scoreCountsAsGraded sc
      | none => false))

/-- Whether category `t` gains graded work: some graded assignment maps to it
(`if type_name:` also rejects an empty name). -/
def categoryHasGradedWork (gradedAids : List Nat) (a2t : List (Nat × String)) (t : String) : Bool :=
  (t != "") && gradedAids.any (fun aid => lookupKey aid a2t == some t)

/-- Models `_active_weight_total` in `_calculate_graded_category_weights`: the sum of
configured weights of categories with graded work (iteration order is
irrelevant to an exact sum). -/
def activeWeightTotal (cfg : GradeConfiguration) (gradedAids : List Nat)
    (a2t : List (Nat × String)) : ℚ :=
  ((cfg.grade_types.filter (fun p => categoryHasGradedWork gradedAids a2t p.1)).map Prod.snd).sum

/-- Models `_weight_normalization`: the active total if positive, else `1.0`. -/
def weightNormalization (cfg : GradeConfiguration) (gradedAids : List Nat)
    (a2t : List (Nat × String)) : ℚ :=
  if 0 < activeWeightTotal cfg gradedAids a2t then activeWeightTotal cfg gradedAids a2t else 1

/-! ### Per-student processing (grade_processor.py lines 443-551) -/

/-- Models `_process_student`'s percentage/points extraction: score present and
positive `points_possible` (`score.points_possible and score.points_possible > 0`)
gives `(score / points_possible, score)`, everything else `(0, 0)`. -/
def scoreFraction (sc : StudentScore) : ℚ × ℚ :=
  match sc.score, sc.points_possible with
  | some s, some pp => if 0 < pp then (s / pp, s) else (0, 0)
  | _, _ => (0, 0)

/-- Whether `_assignment_to_type.get(aid)` is truthy (`if not type_name: continue`). -/
def typeIsUsable (o : Option String) : Bool :=
  match o with
  | some t => t != ""
  | none => false

/-- The score records surviving the three `continue` tests at the top of the
`_process_student` loop: counted assignment, not excused, usable type name. -/
def countedScores (gradedAids : List Nat) (a2t : List (Nat × String))
    (scores : List (Nat × StudentScore)) : List (Nat × StudentScore) :=
  scores.filter (fun p =>
    gradedAids.contains p.1 && !p.2.excused && typeIsUsable (lookupKey p.1 a2t))

/-- Inserting into `assignments_by_type` (outer dict keyed by type name in
first-occurrence order; inner dict keyed by the student's distinct assignment
ids, so appending preserves it). -/
def addToGroup : List (String × List (Nat × ℚ × ℚ)) → String → Nat × ℚ × ℚ →
    List (String × List (Nat × ℚ × ℚ))
  | [], t, x => [(t, [x])]
  | g :: rest, t, x =>
      if g.1 = t then (g.1, g.2 ++ [x]) :: rest else g :: addToGroup rest t x

/-- Building `assignments_by_type` from the counted score records. -/
def groupByType (a2t : List (Nat × String)) (counted : List (Nat × StudentScore)) :
    List (String × List (Nat × ℚ × ℚ)) :=
  counted.foldl (fun acc p =>
    addToGroup acc ((lookupKey p.1 a2t).getD "") (p.1, scoreFraction p.2)) []

/-- The fraction component of a worklist item. -/
def fracOf (it : Nat × ℚ × ℚ) : ℚ := it.2.1

/-- Sort key used by `sorted(assignments.items(), key=lambda x: x[1][0])`. -/
def pctLE (a b : Nat × ℚ × ℚ) : Prop := a.2.1 ≤ b.2.1

instance : DecidableRel pctLE := fun a b => inferInstanceAs (Decidable (a.2.1 ≤ b.2.1))

instance : IsTotal (Nat × ℚ × ℚ) pctLE := ⟨fun a b => le_total a.2.1 b.2.1⟩

instance : IsTrans (Nat × ℚ × ℚ) pctLE := ⟨fun _ _ _ h1 h2 => le_trans h1 h2⟩

/-- The stable ascending sort by fraction. -/
def sortByPct (items : List (Nat × ℚ × ℚ)) : List (Nat × ℚ × ℚ) :=
  List.insertionSort pctLE items

/-- Models `self.gradebook.assignments[aid].name`. -/
def assignmentNameOf (gbA : List (Nat × Assignment)) (aid : Nat) : String :=
  ((lookupKey aid gbA).map Assignment.name).getD ""

/-- The `assgn_dict` built from the surviving items (a dict keyed by
assignment display name). -/
def buildAssgnDict (gbA : List (Nat × Assignment)) (items : List (Nat × ℚ × ℚ)) :
    List (String × ℚ × ℚ) :=
  items.foldl (fun acc it => dictUpd acc (assignmentNameOf gbA it.1) (it.2.1, it.2.2)) []

/-- The body of the per-type loop in `_process_student` (lines 484-524): sort
by fraction, conditionally drop the `k` lowest recording only the first
dropped item, then average the survivors; an empty surviving set produces no
result. -/
def processCategory (gbA : List (Nat × Assignment)) (cfg : GradeConfiguration)
    (dropLowest : List (String × Nat)) (typeName : String)
    (items : List (Nat × ℚ × ℚ)) : Option GradeTypeResult :=
  let sorted0 := sortByPct items
  let numToDrop := (lookupKey typeName dropLowest).getD 0
  let surviving :=
    if 0 < numToDrop ∧ numToDrop < sorted0.length then sorted0.drop numToDrop else sorted0
  let droppedRec :=
    if 0 < numToDrop ∧ numToDrop < sorted0.length then
      (nth sorted0 0).map (fun it => (assignmentNameOf gbA it.1, it.2.1, it.2.2))
    else none
  if surviving = [] then none
  else
    let avgPct := (surviving.map fracOf).sum / (surviving.length : ℚ)
    some { type_name := typeName
           assignments := buildAssgnDict gbA surviving
           average_percentage := avgPct
           contribution_to_total := avgPct * cfg.weightFor typeName
           num_assignments := surviving.length
           dropped := droppedRec }

/-- The normalization step at lines 527-537.  `normFactor` is
`self._weight_normalization` when the attribute exists (graded-only runs),
`none` otherwise; returns (normalized percentage, recorded factor). -/
def normalizeStudent (cfg : GradeConfiguration) (normFactor : Option ℚ) (finalPct : ℚ) : ℚ × ℚ :=
  match normFactor with
  | some w =>
      if 0 < w then (finalPct / w, w)
      else if 0 < cfg.totalWeight then (finalPct / cfg.totalWeight, cfg.totalWeight)
      else (0, 1)
  | none =>
      if 0 < cfg.totalWeight then (finalPct / cfg.totalWeight, cfg.totalWeight)
      else (0, 1)

/-- Models `student.name or str(student.id)`. -/
def displayName (nameOpt : Option String) (uid : Nat) : String :=
  match nameOpt with
  | some n => if n = "" then toString uid else n
  | none => toString uid

/-- Models `if self.modified_grade_scale:` — an absent or empty dict is falsy. -/
def modifiedGradeFor (p : ℚ) (mscale : Option (List (ℚ × String))) : Option String :=
  match mscale with
  | some l => if l = [] then none else letterGrade p l
  | none => none

/-- Models `_process_student` given the already-filtered counted score records and
the student's identity fields. -/
def processStudentFrom (gbA : List (Nat × Assignment)) (cfg : GradeConfiguration)
    (dropLowest : List (String × Nat)) (normFactor : Option ℚ) (a2t : List (Nat × String))
    (scale : List (ℚ × String)) (mscale : Option (List (ℚ × String)))
    (uid : Nat) (nameOpt login email : Option String)
    (counted : List (Nat × StudentScore)) : ProcessedStudent :=
  let results := (groupByType a2t counted).filterMap (fun g =>
    (processCategory gbA cfg dropLowest g.1 g.2).map (fun r => (g.1, r)))
  let finalPct := (results.map (fun pr => pr.2.contribution_to_total)).sum
  let np := normalizeStudent cfg normFactor finalPct
  { user_id := uid
    name := displayName nameOpt uid
    email := email
    mit_id := login
    grade_types := results
    final_percentage := finalPct
    normalized_percentage := np.1
    letter_grade := letterGrade np.1 scale
    modified_letter_grade := modifiedGradeFor np.1 mscale
    anomalies := []
    weight_normalization_factor := np.2 }

/-- Models `_process_student` on a `StudentSummary`. -/
def processStudent (gb : Gradebook) (cfg : GradeConfiguration)
    (dropLowest : List (String × Nat)) (normFactor : Option ℚ) (gradedAids : List Nat)
    (a2t : List (Nat × String)) (scale : List (ℚ × String))
    (mscale : Option (List (ℚ × String))) (stu : StudentSummary) : ProcessedStudent :=
  processStudentFrom gb.assignments cfg dropLowest normFactor a2t scale mscale
    stu.id stu.name stu.login stu.email (countedScores gradedAids a2t stu.scores)

/-! ### Anomaly detection (grade_processor.py lines 553-622) -/

/-- Models `type_percentages = {name: result.average_percentage for ...}`. -/
def typePercentages (gts : List (String × GradeTypeResult)) : List (String × ℚ) :=
  gts.map (fun pr => (pr.1, pr.2.average_percentage))

/-- The check-1 trigger: `max(pct1, pct2) > 0.90 and gap > 0.20`. -/
def qualifiesGap (p q : String × ℚ) : Bool :=
  decide (9 / 10 < max p.2 q.2) && decide (1 / 5 < |p.2 - q.2|)

/-- The check-1 finding text (higher category first). -/
def gapMsg (p q : String × ℚ) : String :=
  let hi := if q.2 < p.2 then p else q
  let lo := if q.2 < p.2 then q else p
  hi.1 ++ " avg is " ++ toString hi.2 ++ " but " ++ lo.1 ++ " avg is only " ++
    toString lo.2 ++ " (gap: " ++ toString (|p.2 - q.2|) ++ ")"

/-- Check 1 (cross-category gaps, lines 577-597): the double loop over the
category/average pairs, skipping unless `type1 < type2`. -/
def gapFindings (tps : List (String × ℚ)) : List String :=
  if 2 ≤ tps.length then
    tps.flatMap (fun p1 => tps.flatMap (fun p2 =>
      if strLt p1.1 p2.1 then (if qualifiesGap p1 p2 then [gapMsg p1 p2] else []) else []))
  else []

/-- The check-2 finding text. -/
def varMsg (t : String) (v m : ℚ) : String :=
  "High variance in " ++ t ++ " scores (variance: " ++ toString v ++ ", mean: " ++ toString m ++ ")"

/-- Check 2 (intra-category variance, lines 599-610): categories with at
least 3 surviving assignments whose fraction stdev exceeds 0.20 (variance
`> 0.04`) and mean exceeds 0.30. -/
def varianceFindings (gts : List (String × GradeTypeResult)) : List String :=
  gts.flatMap (fun pr =>
    if 3 ≤ pr.2.num_assignments then
      let ps := pr.2.assignments.map (fun a => a.2.1)
      if 1 / 25 < sampleVar ps ∧ 3 / 10 < listMean ps then
        [varMsg pr.1 (sampleVar ps) (listMean ps)]
      else []
    else [])

/-- The check-3 finding text. -/
def outMsg (t : String) (avg m : ℚ) : String :=
  "Statistical outlier in " ++ t ++ ": avg " ++ toString avg ++
    " (class mean: " ++ toString m ++ ")"

/-- Check 3 for one category result (lines 612-622): only when class stats
exist for the category and their stdev is positive (`variance > 0`); the
z-score test `z > 2 ∧ avg > 0.95` is encoded variance-sidedly. -/
def outlierFor (stats : List (String × ℚ × ℚ)) (pr : String × GradeTypeResult) : List String :=
  match lookupKey pr.1 stats with
  | some mv =>
      if 0 < mv.2 then
        if (0 < pr.2.average_percentage - mv.1 ∧
              4 * mv.2 < (pr.2.average_percentage - mv.1) ^ 2) ∧
            19 / 20 < pr.2.average_percentage then
          [outMsg pr.1 pr.2.average_percentage mv.1]
        else []
      else []
  | none => []

/-- Check 3 over all of a student's category results. -/
def outlierFindings (stats : List (String × ℚ × ℚ)) (gts : List (String × GradeTypeResult)) :
    List String :=
  gts.flatMap (outlierFor stats)

/-- The per-category averages of the students having a result in `t`
(processed-population iteration order). -/
def avgsFor (t : String) (students : List ProcessedStudent) : List ℚ :=
  students.filterMap (fun s => (lookupKey t s.grade_types).map GradeTypeResult.average_percentage)

/-- Models `type_stats` (lines 561-573): mean and sample variance per configured
category with at least two participating students. -/
def classTypeStats (cfg : GradeConfiguration) (students : List ProcessedStudent) :
    List (String × ℚ × ℚ) :=
  cfg.grade_types.filterMap (fun p =>
    let ps := avgsFor p.1 students
    if 2 ≤ ps.length then some (p.1, listMean ps, sampleVar ps) else none)

/-- The three checks append to `student.anomalies` in order: gaps, then
variance, then outliers. -/
def addAnomalies (stats : List (String × ℚ × ℚ)) (s : ProcessedStudent) : ProcessedStudent :=
  { s with anomalies := s.anomalies ++ gapFindings (typePercentages s.grade_types) ++
      varianceFindings s.grade_types ++ outlierFindings stats s.grade_types }

/-- Models `_detect_anomalies`: class stats are computed from the finished
population first, then every student is annotated. -/
def detectAnomalies (cfg : GradeConfiguration) (students : List ProcessedStudent) :
    List ProcessedStudent :=
  students.map (addAnomalies (classTypeStats cfg students))

/-! ### The full run (grade_processor.py lines 405-441) -/

/-- The skip test at line 433: a truthy name containing `Perfect` or
`Test Student`. -/
def isTestStudent (nameOpt : Option String) : Bool :=
  match nameOpt with
  | some n => (n != "") && (strContainsSub n "Perfect" || strContainsSub n "Test Student")
  | none => false

/-- Models `process_grades`: compute the counted-assignment set (all assignments in
full-semester mode) and, for graded-only runs, the shared normalization
factor; process every non-test student; optionally run anomaly detection. -/
def processGrades (gb : Gradebook) (cfg : GradeConfiguration) (a2t : List (Nat × String))
    (dropLowest : List (String × Nat)) (onlyGraded detect : Bool)
    (scale : List (ℚ × String)) (mscale : Option (List (ℚ × String))) :
    List ProcessedStudent :=
  let gradedAids := if onlyGraded then identifyGradedAssignments gb
                    else gb.assignments.map Prod.fst
  let normFactor := if onlyGraded then some (weightNormalization cfg gradedAids a2t) else none
  let processed := (gb.students.filter (fun s => !isTestStudent s.name)).map
    (processStudent gb cfg dropLowest normFactor gradedAids a2t scale mscale)
  if detect then detectAnomalies cfg processed else processed

/-! ### Analysis-side definitions -/

/-- The ordered pairs visited by check 1's double loop which survive the
`type1 >= type2` skip, in visit order. -/
def visitedGapPairs (tps : List (String × ℚ)) :
    List ((String × ℚ) × (String × ℚ)) :=
  tps.flatMap (fun p1 => (tps.filter (fun p2 => strLt p1.1 p2.1)).map (fun p2 => (p1, p2)))

/-! ### Concrete fixtures used by the witnesses -/

/-- A four-entry letter scale (the boundary table from the spec). -/
def sampleScale : List (ℚ × String) := [(0, "F"), (9/10, "A-"), (94/100, "A"), (97/100, "A+")]

/-- Assignment catalog with three problem sets. -/
def catalogPS : List (Nat × Assignment) :=
  [(1, { id := 1, name := "hw1", points_possible := some 10 }),
   (2, { id := 2, name := "hw2", points_possible := some 10 }),
   (3, { id := 3, name := "hw3", points_possible := some 10 }),
   (4, { id := 4, name := "hw4", points_possible := some 10 })]

/-- Worklist with fractions 0.80, 0.50, 0.90 (insertion order). -/
def itemsPS : List (Nat × ℚ × ℚ) := [(2, 4/5, 8), (1, 1/2, 5), (3, 9/10, 9)]

/-- Worklist with fractions 0.10, 0.20, 0.80, 0.90. -/
def itemsPS4 : List (Nat × ℚ × ℚ) := [(1, 1/10, 1), (2, 2/10, 2), (3, 8/10, 8), (4, 9/10, 9)]

/-- Single-category configuration. -/
def cfgPS : GradeConfiguration := { grade_types := [("PS", 1)], allow_partial := false }

/-- 40%/60% two-category configuration (partial-semester). -/
def cfgFortySixty : GradeConfiguration :=
  { grade_types := [("HW", 2/5), ("Exam", 3/5)], allow_partial := true }

/-- Assignment-to-category map: assignment 1 is HW, assignment 2 is Exam. -/
def a2tFortySixty : List (Nat × String) := [(1, "HW"), (2, "Exam")]

/-- Gradebook where only the HW category has graded work and the sole student
averages 0.90 there. -/
def gbOneGraded : Gradebook :=
  { assignments := [(1, { id := 1, name := "hw1", points_possible := some 10 }),
                    (2, { id := 2, name := "ex1", points_possible := some 100 })]
    students := [{ id := 5, name := some "Alice A",
                   scores := [(1, { assignment_id := 1, score := some 9,
                                    points_possible := some 10 })] }] }

/-- An excused score record for assignment 2. -/
def excusedScore : StudentScore :=
  { assignment_id := 2, score := some 10, points_possible := some 100, excused := true }

/-- A non-excused score record for assignment 1 (9 of 10). -/
def nineOfTen : StudentScore :=
  { assignment_id := 1, score := some 9, points_possible := some 10 }

/-- A second student used as untouched context in the removal witnesses. -/
def bobStudent : StudentSummary :=
  { id := 6, name := some "Bob B",
    scores := [(1, { assignment_id := 1, score := some 8, points_possible := some 10 })] }

/-- A student summary for a Canvas test account. -/
def perfectStudent : StudentSummary :=
  { id := 7, name := some "Perfect Student",
    scores := [(1, { assignment_id := 1, score := some 10, points_possible := some 10 })] }

/-- Gradebook containing a test account plus a real student. -/
def gbWithTestAccount : Gradebook :=
  { assignments := [(1, { id := 1, name := "hw1", points_possible := some 10 })]
    students := [perfectStudent, { id := 5, name := some "Alice A", scores := [(1, nineOfTen)] }] }

/-- Gradebook whose sole real student aces Exams but is at 50% in HW,
triggering a cross-category gap finding. -/
def gbGap : Gradebook :=
  { assignments := [(1, { id := 1, name := "hw1", points_possible := some 10 }),
                    (2, { id := 2, name := "ex1", points_possible := some 10 })]
    students := [{ id := 5, name := some "Alice A",
                   scores := [(1, { assignment_id := 1, score := some 5,
                                    points_possible := some 10 }),
                              (2, { assignment_id := 2, score := some 10,
                                    points_possible := some 10 })] }] }

/-- Two processed students with identical HW averages (for the zero-variance
witness). -/
def psSame1 : ProcessedStudent :=
  { user_id := 1, name := "A"
    grade_types := [("HW", { type_name := "HW", assignments := [("hw1", 4/5, 8)],
                             average_percentage := 4/5, contribution_to_total := 4/5,
                             num_assignments := 1 })] }

/-- Second such student. -/
def psSame2 : ProcessedStudent :=
  { user_id := 2, name := "B"
    grade_types := [("HW", { type_name := "HW", assignments := [("hw1", 4/5, 8)],
                             average_percentage := 4/5, contribution_to_total := 4/5,
                             num_assignments := 1 })] }

/-- Single-category configuration for the zero-variance witness. -/
def cfgHW : GradeConfiguration := { grade_types := [("HW", 1)], allow_partial := false }

/-- A default processed student used to select elements of concrete outputs. -/
def blankStudent : ProcessedStudent := { user_id := 0, name := "" }

/-! ### Helper lemmas on the list primitives -/

theorem nth_mem {α : Type} : ∀ {l : List α} {n : Nat} {a : α}, nth l n = some a → a ∈ l
  | [], _, _, h => by simp [nth] at h
  | b :: t, 0, a, h => by
      simp only [nth, Option.some.injEq] at h
      simp [h]
  | _ :: t, n + 1, a, h => List.mem_cons_of_mem _ (nth_mem (l := t) (n := n) h)

theorem nth_lt {α : Type} : ∀ {l : List α} {n : Nat}, n < l.length → ∃ a, nth l n = some a
  | [], n, h => absurd h (by simp)
  | b :: _, 0, _ => ⟨b, rfl⟩
  | _ :: t, n + 1, h => nth_lt (l := t) (n := n) (Nat.lt_of_succ_lt_succ (by simpa using h))

theorem nth_take_eq {α : Type} : ∀ (l : List α) (c n : Nat), n < c →
    nth (l.take c) n = nth l n
  | [], _, _, _ => by simp
  | _ :: _, c + 1, 0, _ => by simp [nth]
  | _ :: t, c + 1, n + 1, h => by
      simp only [List.take_succ_cons, nth]
      exact nth_take_eq t c n (Nat.lt_of_succ_lt_succ h)
  | _ :: _, 0, n, h => absurd h (Nat.not_lt_zero n)

theorem mem_take_nth {α : Type} : ∀ (l : List α) (c : Nat) (a : α), a ∈ l.take c →
    ∃ j, j < c ∧ nth l j = some a
  | [], c, a, h => by simp at h
  | _ :: _, 0, a, h => by simp at h
  | b :: t, c + 1, a, h => by
      rw [List.take_succ_cons] at h
      rcases List.mem_cons.mp h with h1 | h2
      · exact ⟨0, Nat.succ_pos c, by simp [nth, h1]⟩
      · obtain ⟨j, hj, hnth⟩ := mem_take_nth t c a h2
        exact ⟨j + 1, Nat.succ_lt_succ hj, hnth⟩

theorem nth_pairwise {α : Type} {r : α → α → Prop} :
    ∀ {l : List α}, List.Pairwise r l → ∀ {i j : Nat} {a b : α},
      i < j → nth l i = some a → nth l j = some b → r a b
  | [], _, i, _, _, _, _, ha, _ => by simp [nth] at ha
  | c :: t, hp, 0, j + 1, a, b, _, ha, hb => by
      simp only [nth, Option.some.injEq] at ha
      subst ha
      exact (List.pairwise_cons.mp hp).1 b (nth_mem (l := t) (n := j) hb)
  | c :: t, hp, i + 1, j + 1, a, b, hij, ha, hb =>
      nth_pairwise (List.pairwise_cons.mp hp).2
        (Nat.lt_of_succ_lt_succ hij) (ha : nth t i = some a) (hb : nth t j = some b)
  | _ :: _, _, _ + 1, 0, _, _, hij, _, _ => absurd hij (by omega)

theorem filter_sorted_eq_take (p : ℚ) :
    ∀ (l : List (ℚ × String)), List.Sorted keyLE l →
      l.filter (fun e => decide (e.1 ≤ p)) =
        l.take ((l.filter (fun e => decide (e.1 ≤ p))).length)
  | [], _ => rfl
  | e :: t, hs => by
      obtain ⟨hhead, htail⟩ := List.sorted_cons.mp hs
      by_cases hep : e.1 ≤ p
      · rw [List.filter_cons_of_pos (by simpa using hep)]
        simp only [List.length_cons, List.take_succ_cons]
        rw [← filter_sorted_eq_take p t htail]
      · have hnil : t.filter (fun e => decide (e.1 ≤ p)) = [] := by
          rw [List.filter_eq_nil_iff]
          intro x hx
          simp only [decide_eq_true_eq]
          intro hxp
          exact hep (le_trans (hhead x hx) hxp)
        rw [List.filter_cons_of_neg (by simpa using hep), hnil]
        simp

/-! ### Claim theorems -/

/-- Claim C3: constructing a `GradeConfiguration` with `allow_partial = false`
raises `BadGradeTypesWeight` exactly when the weights do not sum to 1.0
within tolerance 1e-8; for any `allow_partial`, a sum above `1 + 1e-8` or
below `1e-8` raises; a sum of exactly 1.0 succeeds.  The error occurs in the
constructor, before any student processing. -/
theorem config_weight_validation_c3 (gradeTypes : List (String × ℚ)) :
    (configOk (mkGradeConfiguration gradeTypes false) = false ↔
      weightTolerance < |(gradeTypes.map Prod.snd).sum - 1|) ∧
    (∀ allowPartial : Bool,
      (1 + weightTolerance < (gradeTypes.map Prod.snd).sum ∨
        (gradeTypes.map Prod.snd).sum < weightTolerance) →
      configOk (mkGradeConfiguration gradeTypes allowPartial) = false) ∧
    ((gradeTypes.map Prod.snd).sum = 1 →
      ∀ allowPartial : Bool, configOk (mkGradeConfiguration gradeTypes allowPartial) = true) := by
  have htol : (0 : ℚ) < weightTolerance := by norm_num [weightTolerance]
  have htol2 : weightTolerance < 1 - weightTolerance := by norm_num [weightTolerance]
  refine ⟨?_, ?_, ?_⟩
  · simp only [mkGradeConfiguration]
    split_ifs with h1 h2 h3
    · simp only [configOk, true_iff]
      rw [abs_of_pos (by linarith)]
      linarith
    · simp only [configOk, true_iff]
      rw [abs_of_neg (by linarith)]
      linarith
    · simp only [configOk, true_iff]
      exact h3.2
    · simp only [configOk]
      exact iff_of_false (by simp) (not_lt.mpr (le_of_not_lt (fun hlt => h3 ⟨by simp, hlt⟩)))
  · intro ap h
    simp only [mkGradeConfiguration]
    split_ifs with h1 h2 h3
    · simp [configOk]
    · simp [configOk]
    · simp [configOk]
    · rcases h with h | h
      · exact absurd h h1
      · exact absurd h h2
  · intro hsum ap
    simp only [mkGradeConfiguration, hsum]
    split_ifs with h1 h2 h3
    · exact absurd h1 (by linarith)
    · exact absurd h2 (by linarith)
    · exact absurd h3.2 (by norm_num [weightTolerance])
    · simp [configOk]

/-- Witness for C3 at concrete configurations: weights summing to exactly 1.0
succeed, weights summing to 0.5 fail without `allow_partial`, and weights
summing to 1.5 fail even with `allow_partial`. -/
theorem config_weight_validation_c3_witness :
    configOk (mkGradeConfiguration [("hw", (1 : ℚ))] false) = true ∧
    configOk (mkGradeConfiguration [("hw", (1 : ℚ)/2)] false) = false ∧
    configOk (mkGradeConfiguration [("hw", (3 : ℚ)/2)] true) = false :=
  ⟨(config_weight_validation_c3 [("hw", 1)]).2.2 (by simp) false,
   (config_weight_validation_c3 [("hw", 1/2)]).1.mpr (by norm_num [weightTolerance, abs_of_pos]),
   (config_weight_validation_c3 [("hw", 3/2)]).2.1 true (Or.inl (by norm_num [weightTolerance]))⟩

/-- Claim C4: on a non-empty threshold table the resolver returns the label
of the greatest threshold at most the percentage (so anything above the top
threshold gets the top label), and a percentage below every threshold still
returns the smallest threshold's label. -/
theorem letter_grade_resolver_c4 (scale : List (ℚ × String)) (p : ℚ) (hne : scale ≠ []) :
    (∀ e ∈ scale, e.1 ≤ p →
      ∃ e2, e2 ∈ scale ∧ e2.1 ≤ p ∧ letterGrade p scale = some e2.2 ∧
        ∀ f ∈ scale, f.1 ≤ p → f.1 ≤ e2.1) ∧
    ((∀ e ∈ scale, p < e.1) →
      ∃ m, m ∈ scale ∧ (∀ f ∈ scale, m.1 ≤ f.1) ∧ letterGrade p scale = some m.2) := by
  have hperm : (sortScale scale).Perm scale := List.perm_insertionSort keyLE scale
  have hsort : List.Sorted keyLE (sortScale scale) :=
    List.sorted_insertionSort keyLE scale
  have hlen : (sortScale scale).length = scale.length := hperm.length_eq
  have htake := filter_sorted_eq_take p (sortScale scale) hsort
  have hcle : ((sortScale scale).filter (fun e => decide (e.1 ≤ p))).length ≤
      (sortScale scale).length := List.length_filter_le _ _
  constructor
  · intro e he hep
    have hes : e ∈ sortScale scale := hperm.mem_iff.mpr he
    have hef : e ∈ (sortScale scale).filter (fun e => decide (e.1 ≤ p)) :=
      List.mem_filter.mpr ⟨hes, by simpa using hep⟩
    set c := ((sortScale scale).filter (fun e => decide (e.1 ≤ p))).length with hc
    have hcpos : 0 < c := List.length_pos.mpr (List.ne_nil_of_mem hef)
    have hidx : c - 1 < (sortScale scale).length := by omega
    obtain ⟨e2, he2⟩ := nth_lt hidx
    have hmin : min (c - 1) ((sortScale scale).length - 1) = c - 1 := by
      apply Nat.min_eq_left
      omega
    have hres : letterGrade p scale = some e2.2 := by
      simp only [letterGrade, ← hc, hmin, he2]
      rfl
    have he2take : e2 ∈ (sortScale scale).take c := by
      apply nth_mem (n := c - 1)
      rw [nth_take_eq _ _ _ (by omega)]
      exact he2
    have he2filt : e2 ∈ (sortScale scale).filter (fun e => decide (e.1 ≤ p)) := by
      rw [htake]; exact he2take
    have he2p : e2.1 ≤ p := by
      have := (List.mem_filter.mp he2filt).2
      simpa using this
    refine ⟨e2, hperm.mem_iff.mp ((List.mem_filter.mp he2filt).1), he2p, hres, ?_⟩
    intro f hf hfp
    have hff : f ∈ (sortScale scale).filter (fun e => decide (e.1 ≤ p)) :=
      List.mem_filter.mpr ⟨hperm.mem_iff.mpr hf, by simpa using hfp⟩
    rw [htake] at hff
    obtain ⟨j, hj, hnthj⟩ := mem_take_nth _ _ _ hff
    rcases Nat.lt_or_ge j (c - 1) with hjlt | hjge
    · exact nth_pairwise hsort hjlt hnthj he2
    · have : j = c - 1 := by omega
      rw [this, he2] at hnthj
      cases hnthj
      exact le_refl _
  · intro hall
    have hnil : (sortScale scale).filter (fun e => decide (e.1 ≤ p)) = [] := by
      rw [List.filter_eq_nil_iff]
      intro x hx
      simp only [decide_eq_true_eq]
      exact not_le.mpr (hall x (hperm.mem_iff.mp hx))
    have hlenpos : 0 < (sortScale scale).length := by
      rw [hlen]
      exact List.length_pos.mpr hne
    obtain ⟨m, hm⟩ := nth_lt (l := sortScale scale) (n := 0) hlenpos
    have hres : letterGrade p scale = some m.2 := by
      simp only [letterGrade, hnil, List.length_nil, Nat.zero_sub, Nat.zero_min, hm]
      rfl
    refine ⟨m, hperm.mem_iff.mp (nth_mem hm), ?_, hres⟩
    intro f hf
    have hfs : f ∈ sortScale scale := hperm.mem_iff.mpr hf
    cases hsl : sortScale scale with
    | nil => rw [hsl] at hfs; simp at hfs
    | cons a t =>
        rw [hsl] at hm
        simp only [nth, Option.some.injEq] at hm
        subst hm
        rw [hsl] at hfs
        rcases List.mem_cons.mp hfs with h1 | h2
        · rw [h1]
        · rw [hsl] at hsort
          exact (List.sorted_cons.mp hsort).1 f h2

/-- Witness for C4 on the spec's boundary table: exactly 0.90 resolves to
`A-`, 1.10 (extra credit) to the top label `A+`, and the general theorem
instantiates at that table with percentage 0.90. -/
theorem letter_grade_resolver_c4_witness :
    (sampleScale ≠ []) ∧
    (∀ e ∈ sampleScale, e.1 ≤ (9 : ℚ)/10 →
      ∃ e2, e2 ∈ sampleScale ∧ e2.1 ≤ (9 : ℚ)/10 ∧
        letterGrade ((9 : ℚ)/10) sampleScale = some e2.2 ∧
        ∀ f ∈ sampleScale, f.1 ≤ (9 : ℚ)/10 → f.1 ≤ e2.1) ∧
    letterGrade ((9 : ℚ)/10) sampleScale = some "A-" ∧
    letterGrade ((11 : ℚ)/10) sampleScale = some "A+" :=
  ⟨by simp [sampleScale],
   (letter_grade_resolver_c4 sampleScale ((9 : ℚ)/10) (by simp [sampleScale])).1,
   by with_unfolding_all decide,
   by with_unfolding_all decide⟩

theorem dictUpd_keys {κ α : Type} [DecidableEq κ] :
    ∀ (acc : List (κ × α)) (k : κ) (v : α) (q : κ), q ∈ (dictUpd acc k v).map Prod.fst →
      q = k ∨ q ∈ acc.map Prod.fst
  | [], _, _, q, h => by
      simp [dictUpd] at h
      exact Or.inl h
  | p :: rest, k, v, q, h => by
      simp only [dictUpd] at h
      split at h
      next heq =>
        simp only [List.map_cons, List.mem_cons] at h
        rcases h with h | h
        · exact Or.inr (by simp [h])
        · exact Or.inr (by simp [List.map_cons, List.mem_cons, h])
      next hnum =>
        simp only [List.map_cons, List.mem_cons] at h
        rcases h with h | h
        · exact Or.inr (by simp [h])
        · rcases dictUpd_keys rest k v q h with h1 | h2
          · exact Or.inl h1
          · exact Or.inr (by simp [List.map_cons, List.mem_cons, h2])

theorem buildAssgnDict_keys_aux (gbA : List (Nat × Assignment)) :
    ∀ (items : List (Nat × ℚ × ℚ)) (acc : List (String × ℚ × ℚ)) (pr : String × ℚ × ℚ),
      pr ∈ items.foldl (fun acc it => dictUpd acc (assignmentNameOf gbA it.1) (it.2.1, it.2.2)) acc →
      pr.1 ∈ acc.map Prod.fst ∨ pr.1 ∈ items.map (fun it => assignmentNameOf gbA it.1)
  | [], acc, pr, h => by
      simp only [List.foldl_nil] at h
      exact Or.inl (List.mem_map_of_mem Prod.fst h)
  | it :: rest, acc, pr, h => by
      simp only [List.foldl_cons] at h
      rcases buildAssgnDict_keys_aux gbA rest (dictUpd acc (assignmentNameOf gbA it.1) (it.2.1, it.2.2)) pr h with h1 | h2
      · rcases dictUpd_keys _ _ _ _ h1 with h3 | h4
        · exact Or.inr (by simp [h3])
        · exact Or.inl h4
      · exact Or.inr (by simp [List.map_cons, List.mem_cons, h2])

theorem buildAssgnDict_keys (gbA : List (Nat × Assignment)) (items : List (Nat × ℚ × ℚ))
    (pr : String × ℚ × ℚ) (h : pr ∈ buildAssgnDict gbA items) :
    pr.1 ∈ items.map (fun it => assignmentNameOf gbA it.1) := by
  rcases buildAssgnDict_keys_aux gbA items [] pr h with h1 | h2
  · simp at h1
  · exact h2

theorem processCategory_eval_drop (gbA : List (Nat × Assignment)) (cfg : GradeConfiguration)
    (dropLowest : List (String × Nat)) (typeName : String) (items : List (Nat × ℚ × ℚ))
    (hc : 0 < (lookupKey typeName dropLowest).getD 0 ∧
      (lookupKey typeName dropLowest).getD 0 < items.length) :
    processCategory gbA cfg dropLowest typeName items =
      some { type_name := typeName
             assignments := buildAssgnDict gbA
               ((sortByPct items).drop ((lookupKey typeName dropLowest).getD 0))
             average_percentage :=
               ((((sortByPct items).drop ((lookupKey typeName dropLowest).getD 0)).map fracOf).sum /
                 ((((sortByPct items).drop ((lookupKey typeName dropLowest).getD 0)).length : ℚ)))
             contribution_to_total :=
               (((((sortByPct items).drop ((lookupKey typeName dropLowest).getD 0)).map fracOf).sum /
                 ((((sortByPct items).drop ((lookupKey typeName dropLowest).getD 0)).length : ℚ)))) *
                 cfg.weightFor typeName
             num_assignments := ((sortByPct items).drop ((lookupKey typeName dropLowest).getD 0)).length
             dropped := (nth (sortByPct items) 0).map
               (fun it => (assignmentNameOf gbA it.1, it.2.1, it.2.2)) } := by
  have hlen : (sortByPct items).length = items.length :=
    (List.perm_insertionSort pctLE items).length_eq
  have hc2 : 0 < (lookupKey typeName dropLowest).getD 0 ∧
      (lookupKey typeName dropLowest).getD 0 < (sortByPct items).length := by
    rw [hlen]; exact hc
  have hdropne : (sortByPct items).drop ((lookupKey typeName dropLowest).getD 0) ≠ [] := by
    intro hnil
    have := List.length_drop ((lookupKey typeName dropLowest).getD 0) (sortByPct items)
    rw [hnil, hlen] at this
    simp at this
    omega
  simp only [processCategory]
  rw [if_pos hc2, if_pos hc2, if_neg hdropne]

theorem processCategory_eval_nodrop (gbA : List (Nat × Assignment)) (cfg : GradeConfiguration)
    (dropLowest : List (String × Nat)) (typeName : String) (items : List (Nat × ℚ × ℚ))
    (hne : items ≠ [])
    (hc : ¬(0 < (lookupKey typeName dropLowest).getD 0 ∧
      (lookupKey typeName dropLowest).getD 0 < items.length)) :
    processCategory gbA cfg dropLowest typeName items =
      some { type_name := typeName
             assignments := buildAssgnDict gbA (sortByPct items)
             average_percentage := ((sortByPct items).map fracOf).sum / ((sortByPct items).length : ℚ)
             contribution_to_total :=
               (((sortByPct items).map fracOf).sum / ((sortByPct items).length : ℚ)) *
                 cfg.weightFor typeName
             num_assignments := (sortByPct items).length
             dropped := none } := by
  have hlen : (sortByPct items).length = items.length :=
    (List.perm_insertionSort pctLE items).length_eq
  have hc2 : ¬(0 < (lookupKey typeName dropLowest).getD 0 ∧
      (lookupKey typeName dropLowest).getD 0 < (sortByPct items).length) := by
    rw [hlen]; exact hc
  have hsne : sortByPct items ≠ [] := by
    intro hnil
    apply hne
    have hp : ([] : List (Nat × ℚ × ℚ)).Perm items := hnil ▸ List.perm_insertionSort pctLE items
    exact hp.symm.eq_nil
  simp only [processCategory]
  rw [if_neg hc2, if_neg hc2, if_neg hsne]

/-- Claim C2: for a category worklist with `n` counted pairs and configured
drop count `k`, if `k > 0` and `n > k` the `k` lowest-fraction pairs (the
first `k` of the stable ascending sort) are removed and the average is the
mean of the surviving `n - k` fractions, with the single lowest item
recorded as dropped; otherwise (including `k = 0`) nothing is removed and
the average is the mean of all `n` fractions. -/
theorem drop_lowest_category_c2 (gbA : List (Nat × Assignment)) (cfg : GradeConfiguration)
    (dropLowest : List (String × Nat)) (typeName : String) (items : List (Nat × ℚ × ℚ))
    (hne : items ≠ []) :
    (sortByPct items).Perm items ∧
    List.Sorted pctLE (sortByPct items) ∧
    ∃ r, processCategory gbA cfg dropLowest typeName items = some r ∧
      ((0 < (lookupKey typeName dropLowest).getD 0 ∧
          (lookupKey typeName dropLowest).getD 0 < items.length) →
        (r.average_percentage =
            listMean (((sortByPct items).drop ((lookupKey typeName dropLowest).getD 0)).map fracOf) ∧
         r.num_assignments = items.length - (lookupKey typeName dropLowest).getD 0 ∧
         ∃ a, nth (sortByPct items) 0 = some a ∧
           r.dropped = some (assignmentNameOf gbA a.1, a.2.1, a.2.2))) ∧
      (¬(0 < (lookupKey typeName dropLowest).getD 0 ∧
          (lookupKey typeName dropLowest).getD 0 < items.length) →
        (r.average_percentage = listMean (items.map fracOf) ∧
         r.num_assignments = items.length ∧
         r.dropped = none)) := by
  have hperm : (sortByPct items).Perm items := List.perm_insertionSort pctLE items
  have hsort : List.Sorted pctLE (sortByPct items) := List.sorted_insertionSort pctLE items
  have hlen : (sortByPct items).length = items.length := hperm.length_eq
  refine ⟨hperm, hsort, ?_⟩
  by_cases hc : 0 < (lookupKey typeName dropLowest).getD 0 ∧
      (lookupKey typeName dropLowest).getD 0 < items.length
  · have h0 : 0 < (sortByPct items).length := by omega
    obtain ⟨a, ha⟩ := nth_lt (l := sortByPct items) (n := 0) h0
    refine ⟨_, processCategory_eval_drop gbA cfg dropLowest typeName items hc, ?_, ?_⟩
    · intro _
      refine ⟨?_, ?_, ⟨a, ha, ?_⟩⟩
      · rw [listMean, List.length_map]
      · rw [List.length_drop, hlen]
      · rw [ha]
        rfl
    · intro hnc
      exact absurd hc hnc
  · refine ⟨_, processCategory_eval_nodrop gbA cfg dropLowest typeName items hne hc, ?_, ?_⟩
    · intro hcc
      exact absurd hcc hc
    · intro _
      refine ⟨?_, hlen, rfl⟩
      rw [listMean, List.length_map, hlen, (hperm.map fracOf).sum_eq]

/-- Witness for C2: the theorem instantiated on fractions
[0.80, 0.50, 0.90]; with drop count 1 the aggregate is 17/20 = 85% with the
50% item (`hw1`) recorded dropped, and with no drop rule it is 11/15 =
73.33%. -/
theorem drop_lowest_category_c2_witness :
    (itemsPS ≠ []) ∧
    (sortByPct itemsPS).Perm itemsPS ∧
    ((processCategory catalogPS cfgPS [("PS", 1)] "PS" itemsPS).map
        (fun r => (r.average_percentage, r.dropped, r.num_assignments)) =
      some (17/20, some ("hw1", 1/2, 5), 2)) ∧
    ((processCategory catalogPS cfgPS [] "PS" itemsPS).map
        (fun r => (r.average_percentage, r.dropped, r.num_assignments)) =
      some (11/15, none, 3)) :=
  ⟨by with_unfolding_all decide,
   (drop_lowest_category_c2 catalogPS cfgPS [("PS", 1)] "PS" itemsPS
     (by with_unfolding_all decide)).1,
   by with_unfolding_all decide,
   by with_unfolding_all decide⟩

/-- Claim C9: when a drop count `k > 1` applies to a category with more than
`k` counted pairs, all `k` lowest-fraction pairs are removed from the
average and from the surviving-assignments dict, but `dropped` records only
the single lowest item; nothing else in the result mentions the other
`k - 1` removed assignments. -/
theorem single_dropped_record_c9 (gbA : List (Nat × Assignment)) (cfg : GradeConfiguration)
    (dropLowest : List (String × Nat)) (typeName : String) (items : List (Nat × ℚ × ℚ))
    (hk1 : 1 < (lookupKey typeName dropLowest).getD 0)
    (hkn : (lookupKey typeName dropLowest).getD 0 < items.length) :
    ∃ r, processCategory gbA cfg dropLowest typeName items = some r ∧
      r.assignments =
        buildAssgnDict gbA ((sortByPct items).drop ((lookupKey typeName dropLowest).getD 0)) ∧
      r.num_assignments = items.length - (lookupKey typeName dropLowest).getD 0 ∧
      r.average_percentage =
        listMean (((sortByPct items).drop ((lookupKey typeName dropLowest).getD 0)).map fracOf) ∧
      (∃ a, nth (sortByPct items) 0 = some a ∧
        r.dropped = some (assignmentNameOf gbA a.1, a.2.1, a.2.2)) ∧
      (∀ pr ∈ r.assignments,
        pr.1 ∈ (((sortByPct items).drop ((lookupKey typeName dropLowest).getD 0)).map
          (fun it => assignmentNameOf gbA it.1))) := by
  have hc : 0 < (lookupKey typeName dropLowest).getD 0 ∧
      (lookupKey typeName dropLowest).getD 0 < items.length := ⟨by omega, hkn⟩
  have hlen : (sortByPct items).length = items.length :=
    (List.perm_insertionSort pctLE items).length_eq
  have h0 : 0 < (sortByPct items).length := by omega
  obtain ⟨a, ha⟩ := nth_lt (l := sortByPct items) (n := 0) h0
  refine ⟨_, processCategory_eval_drop gbA cfg dropLowest typeName items hc, rfl, ?_, ?_, ⟨a, ha, ?_⟩, ?_⟩
  · rw [List.length_drop, hlen]
  · rw [listMean, List.length_map]
  · rw [ha]
    rfl
  · intro pr hpr
    exact buildAssgnDict_keys gbA _ pr hpr

/-- Witness for C9: four fractions [0.10, 0.20, 0.80, 0.90] with drop count
2 — both low items leave the average (17/20) and the assignment dict, yet
`dropped` names only the single lowest (`hw1` at 10%). -/
theorem single_dropped_record_c9_witness :
    (1 < (lookupKey "PS" [("PS", 2)]).getD 0) ∧
    ((lookupKey "PS" [("PS", 2)]).getD 0 < itemsPS4.length) ∧
    (∃ r, processCategory catalogPS cfgPS [("PS", 2)] "PS" itemsPS4 = some r ∧
      r.assignments = buildAssgnDict catalogPS ((sortByPct itemsPS4).drop
        ((lookupKey "PS" [("PS", 2)]).getD 0)) ∧
      r.num_assignments = itemsPS4.length - (lookupKey "PS" [("PS", 2)]).getD 0 ∧
      r.average_percentage = listMean (((sortByPct itemsPS4).drop
        ((lookupKey "PS" [("PS", 2)]).getD 0)).map fracOf) ∧
      (∃ a, nth (sortByPct itemsPS4) 0 = some a ∧
        r.dropped = some (assignmentNameOf catalogPS a.1, a.2.1, a.2.2)) ∧
      (∀ pr ∈ r.assignments,
        pr.1 ∈ (((sortByPct itemsPS4).drop ((lookupKey "PS" [("PS", 2)]).getD 0)).map
          (fun it => assignmentNameOf catalogPS it.1)))) ∧
    ((processCategory catalogPS cfgPS [("PS", 2)] "PS" itemsPS4).map
        (fun r => (r.average_percentage, r.dropped, r.num_assignments,
          r.assignments.map Prod.fst)) =
      some (17/20, some ("hw1", 1/10, 1), 2, ["hw3", "hw4"])) :=
  ⟨by with_unfolding_all decide,
   by with_unfolding_all decide,
   single_dropped_record_c9 catalogPS cfgPS [("PS", 2)] "PS" itemsPS4
     (by with_unfolding_all decide) (by with_unfolding_all decide),
   by with_unfolding_all decide⟩

theorem weightNormalization_pos (cfg : GradeConfiguration) (gradedAids : List Nat)
    (a2t : List (Nat × String)) : 0 < weightNormalization cfg gradedAids a2t := by
  unfold weightNormalization
  split_ifs with h
  · exact h
  · norm_num

theorem processStudentFrom_normalization (gbA : List (Nat × Assignment))
    (cfg : GradeConfiguration) (dropLowest : List (String × Nat)) (w : ℚ)
    (a2t : List (Nat × String)) (scale : List (ℚ × String))
    (mscale : Option (List (ℚ × String))) (uid : Nat) (nm lg em : Option String)
    (counted : List (Nat × StudentScore)) (hw : 0 < w) :
    (processStudentFrom gbA cfg dropLowest (some w) a2t scale mscale
        uid nm lg em counted).weight_normalization_factor = w ∧
    (processStudentFrom gbA cfg dropLowest (some w) a2t scale mscale
        uid nm lg em counted).normalized_percentage =
      (processStudentFrom gbA cfg dropLowest (some w) a2t scale mscale
        uid nm lg em counted).final_percentage / w ∧
    (processStudentFrom gbA cfg dropLowest (some w) a2t scale mscale
        uid nm lg em counted).final_percentage =
      ((processStudentFrom gbA cfg dropLowest (some w) a2t scale mscale
        uid nm lg em counted).grade_types.map
          (fun pr => pr.2.contribution_to_total)).sum := by
  simp only [processStudentFrom, normalizeStudent]
  rw [if_pos hw]
  exact ⟨rfl, rfl, trivial⟩

/-- Claim C1: in a graded-only run the per-run normalization factor recorded
on every student equals the summed nominal weights of categories with graded
work when that sum is positive and 1.0 otherwise, and each student's
normalized percentage is their raw weighted contribution sum divided by that
shared factor. -/
theorem graded_only_normalization_c1 (gb : Gradebook) (cfg : GradeConfiguration)
    (a2t : List (Nat × String)) (dropLowest : List (String × Nat)) (detect : Bool)
    (scale : List (ℚ × String)) (mscale : Option (List (ℚ × String)))
    (s : ProcessedStudent)
    (hs : s ∈ processGrades gb cfg a2t dropLowest true detect scale mscale) :
    s.weight_normalization_factor =
      (if 0 < activeWeightTotal cfg (identifyGradedAssignments gb) a2t
        then activeWeightTotal cfg (identifyGradedAssignments gb) a2t else 1) ∧
    s.normalized_percentage = s.final_percentage / s.weight_normalization_factor ∧
    s.final_percentage =
      (s.grade_types.map (fun pr => pr.2.contribution_to_total)).sum := by
  have hw := weightNormalization_pos cfg (identifyGradedAssignments gb) a2t
  have hval : weightNormalization cfg (identifyGradedAssignments gb) a2t =
      (if 0 < activeWeightTotal cfg (identifyGradedAssignments gb) a2t
        then activeWeightTotal cfg (identifyGradedAssignments gb) a2t else 1) := rfl
  have hpg : processGrades gb cfg a2t dropLowest true detect scale mscale =
      (if detect then
        detectAnomalies cfg ((gb.students.filter (fun st => !isTestStudent st.name)).map
          (processStudent gb cfg dropLowest
            (some (weightNormalization cfg (identifyGradedAssignments gb) a2t))
            (identifyGradedAssignments gb) a2t scale mscale))
      else ((gb.students.filter (fun st => !isTestStudent st.name)).map
          (processStudent gb cfg dropLowest
            (some (weightNormalization cfg (identifyGradedAssignments gb) a2t))
            (identifyGradedAssignments gb) a2t scale mscale))) := rfl
  rw [hpg] at hs
  have hcore : ∀ stu : StudentSummary,
      (processStudent gb cfg dropLowest
          (some (weightNormalization cfg (identifyGradedAssignments gb) a2t))
          (identifyGradedAssignments gb) a2t scale mscale stu).weight_normalization_factor =
        weightNormalization cfg (identifyGradedAssignments gb) a2t ∧
      (processStudent gb cfg dropLowest
          (some (weightNormalization cfg (identifyGradedAssignments gb) a2t))
          (identifyGradedAssignments gb) a2t scale mscale stu).normalized_percentage =
        (processStudent gb cfg dropLowest
          (some (weightNormalization cfg (identifyGradedAssignments gb) a2t))
          (identifyGradedAssignments gb) a2t scale mscale stu).final_percentage /
          weightNormalization cfg (identifyGradedAssignments gb) a2t ∧
      (processStudent gb cfg dropLowest
          (some (weightNormalization cfg (identifyGradedAssignments gb) a2t))
          (identifyGradedAssignments gb) a2t scale mscale stu).final_percentage =
        ((processStudent gb cfg dropLowest
          (some (weightNormalization cfg (identifyGradedAssignments gb) a2t))
          (identifyGradedAssignments gb) a2t scale mscale stu).grade_types.map
            (fun pr => pr.2.contribution_to_total)).sum := by
    intro stu
    exact processStudentFrom_normalization gb.assignments cfg dropLowest _ a2t scale mscale
      stu.id stu.name stu.login stu.email _ hw
  cases detect with
  | false =>
      rw [if_neg (by simp)] at hs
      obtain ⟨stu, _, heq⟩ := List.mem_map.mp hs
      obtain ⟨h1, h2, h3⟩ := hcore stu
      rw [heq] at h1 h2 h3
      rw [← hval]
      exact ⟨h1, by rw [h2, h1], h3⟩
  | true =>
      rw [if_pos rfl] at hs
      simp only [detectAnomalies] at hs
      obtain ⟨s0, hs0, heq0⟩ := List.mem_map.mp hs
      obtain ⟨stu, _, heq⟩ := List.mem_map.mp hs0
      obtain ⟨h1, h2, h3⟩ := hcore stu
      rw [heq] at h1 h2 h3
      have hf1 : s.weight_normalization_factor = s0.weight_normalization_factor := by
        rw [← heq0]; rfl
      have hf2 : s.normalized_percentage = s0.normalized_percentage := by
        rw [← heq0]; rfl
      have hf3 : s.final_percentage = s0.final_percentage := by
        rw [← heq0]; rfl
      have hf4 : s.grade_types = s0.grade_types := by
        rw [← heq0]; rfl
      rw [← hval, hf1, hf2, hf3, hf4]
      exact ⟨h1, by rw [h2, h1], h3⟩

/-- Witness for C1: two categories weighted 0.40/0.60 where only the
0.40-weighted category has graded work; the sole student averages 0.90
there, contributes 0.36 raw, and is normalized by the shared factor 0.40 to
exactly 0.90. -/
theorem graded_only_normalization_c1_witness :
    (((processGrades gbOneGraded cfgFortySixty a2tFortySixty [] true true sampleScale
        none).headD blankStudent) ∈
      processGrades gbOneGraded cfgFortySixty a2tFortySixty [] true true sampleScale none) ∧
    ((processGrades gbOneGraded cfgFortySixty a2tFortySixty [] true true sampleScale
        none).headD blankStudent).weight_normalization_factor = 2/5 ∧
    ((processGrades gbOneGraded cfgFortySixty a2tFortySixty [] true true sampleScale
        none).headD blankStudent).final_percentage = 9/25 ∧
    ((processGrades gbOneGraded cfgFortySixty a2tFortySixty [] true true sampleScale
        none).headD blankStudent).normalized_percentage = 9/10 ∧
    ((processGrades gbOneGraded cfgFortySixty a2tFortySixty [] true true sampleScale
        none).headD blankStudent).normalized_percentage =
      ((processGrades gbOneGraded cfgFortySixty a2tFortySixty [] true true sampleScale
        none).headD blankStudent).final_percentage /
        ((processGrades gbOneGraded cfgFortySixty a2tFortySixty [] true true sampleScale
          none).headD blankStudent).weight_normalization_factor :=
  ⟨by with_unfolding_all decide, by with_unfolding_all decide, by with_unfolding_all decide,
   by with_unfolding_all decide,
   (graded_only_normalization_c1 gbOneGraded cfgFortySixty a2tFortySixty [] true sampleScale
      none _ (by with_unfolding_all decide)).2.1⟩

theorem classTypeStats_lookup_aux (students : List ProcessedStudent) (t : String) (m v : ℚ) :
    ∀ gts : List (String × ℚ),
      lookupKey t (gts.filterMap (fun p =>
        if 2 ≤ (avgsFor p.1 students).length then
          some (p.1, listMean (avgsFor p.1 students), sampleVar (avgsFor p.1 students))
        else none)) = some (m, v) →
      2 ≤ (avgsFor t students).length ∧ m = listMean (avgsFor t students) ∧
        v = sampleVar (avgsFor t students)
  | [], h => by simp [lookupKey] at h
  | p :: rest, h => by
      rw [List.filterMap_cons] at h
      split at h
      next => exact classTypeStats_lookup_aux students t m v rest h
      next pr heq =>
        simp only [lookupKey] at h
        split at h
        next hpt =>
          split at heq
          next hlen =>
            simp only [Option.some.injEq] at heq h
            rw [← heq] at hpt h
            simp only [Prod.mk.injEq] at h
            rw [← hpt]
            exact ⟨hlen, h.1.symm, h.2.symm⟩
          next => simp at heq
        next => exact classTypeStats_lookup_aux students t m v rest h

theorem classTypeStats_lookup (cfg : GradeConfiguration) (students : List ProcessedStudent)
    (t : String) (m v : ℚ)
    (h : lookupKey t (classTypeStats cfg students) = some (m, v)) :
    2 ≤ (avgsFor t students).length ∧ m = listMean (avgsFor t students) ∧
      v = sampleVar (avgsFor t students) :=
  classTypeStats_lookup_aux students t m v cfg.grade_types h

theorem sampleVar_const (l : List ℚ) (c : ℚ) (h : ∀ x ∈ l, x = c) : sampleVar l = 0 := by
  by_cases hl : l = []
  · rw [hl]
    simp [sampleVar]
  · have hlen : (l.length : ℚ) ≠ 0 := by
      have hnz : l.length ≠ 0 := by
        simpa [List.length_eq_zero] using hl
      exact_mod_cast hnz
    have hmean : listMean l = c := by
      have hs : l.sum = l.length • c := List.sum_eq_card_nsmul l c h
      rw [listMean, hs, nsmul_eq_mul, mul_comm, mul_div_assoc, div_self hlen, mul_one]
    have hsum : (l.map (fun x => (x - listMean l) ^ 2)).sum = 0 := by
      apply List.sum_eq_zero
      intro x hx
      obtain ⟨y, hy, hxy⟩ := List.mem_map.mp hx
      rw [← hxy, hmean, h y hy]
      ring
    rw [sampleVar, hsum, zero_div]

/-- Claim C10: the class-relative outlier check computes its z-score test
only for categories with a class-stats entry (which requires at least two
students having a result there), and only when the sample deviation is
strictly positive; with a nonpositive variance (in particular when every
participating student has the identical average, which forces variance 0)
the check is silently skipped for every student. -/
theorem outlier_guard_c10 (cfg : GradeConfiguration) (students : List ProcessedStudent)
    (t : String) :
    (∀ m v, lookupKey t (classTypeStats cfg students) = some (m, v) →
      2 ≤ (avgsFor t students).length ∧ m = listMean (avgsFor t students) ∧
        v = sampleVar (avgsFor t students)) ∧
    (∀ (r : GradeTypeResult) (m v : ℚ),
      lookupKey t (classTypeStats cfg students) = some (m, v) → v ≤ 0 →
      outlierFor (classTypeStats cfg students) (t, r) = []) ∧
    (∀ r : GradeTypeResult, lookupKey t (classTypeStats cfg students) = none →
      outlierFor (classTypeStats cfg students) (t, r) = []) ∧
    (∀ c : ℚ, (∀ x ∈ avgsFor t students, x = c) → sampleVar (avgsFor t students) = 0) := by
  refine ⟨classTypeStats_lookup cfg students t, ?_, ?_, ?_⟩
  · intro r m v h hv
    unfold outlierFor
    simp only []
    rw [h]
    simp only [Option.some.injEq]
    rw [if_neg (not_lt.mpr hv)]
  · intro r h
    unfold outlierFor
    simp only []
    rw [h]
  · intro c hc
    exact sampleVar_const _ c hc

/-- Witness for C10: two students with identical 0.80 averages in `HW` — the
two-student precondition holds, the class entry is `(0.80, 0)`, and the
outlier check produces nothing for either student. -/
theorem outlier_guard_c10_witness :
    (lookupKey "HW" (classTypeStats cfgHW [psSame1, psSame2]) = some (4/5, 0)) ∧
    ((0 : ℚ) ≤ 0) ∧
    (2 ≤ (avgsFor "HW" [psSame1, psSame2]).length) ∧
    (outlierFor (classTypeStats cfgHW [psSame1, psSame2])
        ("HW", { type_name := "HW", assignments := [("hw1", 4/5, 8)],
                 average_percentage := 4/5, contribution_to_total := 4/5,
                 num_assignments := 1 }) = []) ∧
    (outlierFindings (classTypeStats cfgHW [psSame1, psSame2]) psSame1.grade_types = []) :=
  ⟨by with_unfolding_all decide, le_refl 0, by with_unfolding_all decide,
   (outlier_guard_c10 cfgHW [psSame1, psSame2] "HW").2.1
     { type_name := "HW", assignments := [("hw1", 4/5, 8)],
       average_percentage := 4/5, contribution_to_total := 4/5,
       num_assignments := 1 } (4/5) 0 (by with_unfolding_all decide) (le_refl 0),
   by with_unfolding_all decide⟩

theorem charLt_irrefl (a : Char) : charLt a a = false := by
  simp [charLt]

theorem listStrLt_irrefl : ∀ l : List Char, listStrLt l l = false
  | [] => rfl
  | a :: as => by
      unfold listStrLt
      rw [if_neg (by simp [charLt_irrefl]), if_neg (by simp [charLt_irrefl])]
      exact listStrLt_irrefl as

theorem strLt_irrefl (s : String) : strLt s s = false := listStrLt_irrefl s.toList

theorem listStrLt_eq_of_not_lt : ∀ as bs : List Char,
    listStrLt as bs = false → listStrLt bs as = false → as = bs
  | [], [], _, _ => rfl
  | [], _ :: _, h1, _ => by simp [listStrLt] at h1
  | _ :: _, [], _, h2 => by simp [listStrLt] at h2
  | a :: as, b :: bs, h1, h2 => by
      unfold listStrLt at h1 h2
      by_cases hab : charLt a b = true
      · rw [if_pos hab] at h1
        exact absurd h1 (by simp)
      · by_cases hba : charLt b a = true
        · rw [if_pos hba] at h2
          exact absurd h2 (by simp)
        · rw [if_neg hab, if_neg hba] at h1
          rw [if_neg hba, if_neg hab] at h2
          have htail : as = bs := listStrLt_eq_of_not_lt as bs h1 h2
          have hval : a.toNat = b.toNat := by
            simp only [charLt, decide_eq_true_eq] at hab hba
            omega
          have hchar : a = b := by
            apply Char.ext
            apply UInt32.eq_of_val_eq
            apply Fin.ext
            exact hval
          rw [hchar, htail]

theorem strLt_total_of_ne (a b : String) (hne : a ≠ b) :
    strLt a b = true ∨ strLt b a = true := by
  by_cases h1 : strLt a b = true
  · exact Or.inl h1
  · by_cases h2 : strLt b a = true
    · exact Or.inr h2
    · exfalso
      apply hne
      have hl : a.toList = b.toList :=
        listStrLt_eq_of_not_lt a.toList b.toList
          (Bool.not_eq_true _ ▸ Bool.of_not_eq_true h1)
          (Bool.not_eq_true _ ▸ Bool.of_not_eq_true h2)
      have : a.data = b.data := hl
      exact String.ext this

theorem gapInner_eq (p1 : String × ℚ) :
    ∀ l : List (String × ℚ),
      (l.flatMap (fun p2 => if strLt p1.1 p2.1 = true then
          (if qualifiesGap p1 p2 = true then [gapMsg p1 p2] else []) else [])) =
      (((l.filter (fun p2 => strLt p1.1 p2.1)).map (fun p2 => (p1, p2))).filter
          (fun pr => qualifiesGap pr.1 pr.2)).map (fun pr => gapMsg pr.1 pr.2)
  | [] => rfl
  | a :: t => by
      rw [List.flatMap_cons]
      by_cases hlt : strLt p1.1 a.1 = true <;> by_cases hq : qualifiesGap p1 a = true <;>
        simp [List.filter_cons, hlt, hq, gapInner_eq p1 t]

theorem gapFindings_struct_aux (full : List (String × ℚ)) :
    ∀ outer : List (String × ℚ),
      (outer.flatMap (fun p1 => full.flatMap (fun p2 => if strLt p1.1 p2.1 = true then
          (if qualifiesGap p1 p2 = true then [gapMsg p1 p2] else []) else []))) =
      ((outer.flatMap (fun p1 => (full.filter (fun p2 => strLt p1.1 p2.1)).map
          (fun p2 => (p1, p2)))).filter (fun pr => qualifiesGap pr.1 pr.2)).map
        (fun pr => gapMsg pr.1 pr.2)
  | [] => rfl
  | a :: t => by
      rw [List.flatMap_cons, List.flatMap_cons, List.filter_append, List.map_append,
        gapFindings_struct_aux full t, gapInner_eq a full]

theorem visitedGapPairs_nil_of_short (tps : List (String × ℚ)) (h : ¬ 2 ≤ tps.length) :
    visitedGapPairs tps = [] := by
  match tps, h with
  | [], _ => rfl
  | [p], _ =>
      simp only [visitedGapPairs, List.flatMap_cons, List.flatMap_nil]
      rw [List.filter_cons_of_neg (by simp [strLt_irrefl]), List.filter_nil]
      rfl
  | p :: q :: rest, h => exact absurd (by simp) h

theorem countOcc_append {α : Type} [DecidableEq α] (a : α) :
    ∀ l1 l2 : List α, countOcc a (l1 ++ l2) = countOcc a l1 + countOcc a l2
  | [], l2 => by simp [countOcc]
  | b :: t, l2 => by
      simp only [List.cons_append, countOcc, List.append_eq]
      rw [countOcc_append a t l2]
      omega

theorem countOcc_eq_zero {α : Type} [DecidableEq α] {a : α} :
    ∀ {l : List α}, a ∉ l → countOcc a l = 0
  | [], _ => rfl
  | b :: t, h => by
      have hba : ¬ b = a := fun hh => h (by rw [hh]; exact List.mem_cons_self a t)
      simp only [countOcc, if_neg hba, Nat.zero_add]
      exact countOcc_eq_zero (fun hh => h (List.mem_cons_of_mem b hh))

theorem countOcc_nodup_mem {α : Type} [DecidableEq α] {a : α} :
    ∀ {l : List α}, l.Nodup → a ∈ l → countOcc a l = 1
  | [], _, h => by simp at h
  | b :: t, hn, h => by
      rcases List.mem_cons.mp h with h1 | h2
      · have hnb : b ∉ t := (List.nodup_cons.mp hn).1
        rw [← h1] at *
        simp [countOcc, countOcc_eq_zero hnb]
      · have hba : ¬ b = a := by
          intro hh
          exact (List.nodup_cons.mp hn).1 (hh ▸ h2)
        simp only [countOcc, if_neg hba, Nat.zero_add]
        exact countOcc_nodup_mem (List.nodup_cons.mp hn).2 h2

theorem countOcc_map_inj {α β : Type} [DecidableEq α] [DecidableEq β] (f : α → β)
    (hf : Function.Injective f) (a : α) :
    ∀ l : List α, countOcc (f a) (l.map f) = countOcc a l
  | [] => rfl
  | b :: t => by
      simp only [List.map_cons, countOcc, countOcc_map_inj f hf a t]
      congr 1
      by_cases hba : b = a
      · rw [if_pos (by rw [hba]), if_pos hba]
      · rw [if_neg (fun hh => hba (hf hh)), if_neg hba]

theorem countOcc_filter_of_pos {α : Type} [DecidableEq α] {p : α → Bool} {a : α}
    (hpa : p a = true) : ∀ l : List α, countOcc a (l.filter p) = countOcc a l
  | [] => rfl
  | b :: t => by
      by_cases hpb : p b = true
      · rw [List.filter_cons_of_pos hpb]
        simp only [countOcc, countOcc_filter_of_pos hpa t]
      · rw [List.filter_cons_of_neg hpb]
        have hba : ¬ b = a := fun hh => hpb (hh ▸ hpa)
        simp only [countOcc, if_neg hba, Nat.zero_add, countOcc_filter_of_pos hpa t]

theorem countOcc_map_pair_eq_zero (p1 x y : String × ℚ) (hne : p1 ≠ x)
    (l : List (String × ℚ)) : countOcc (x, y) (l.map (fun p2 => (p1, p2))) = 0 := by
  apply countOcc_eq_zero
  intro hmem
  obtain ⟨p2, _, heq⟩ := List.mem_map.mp hmem
  apply hne
  exact congrArg Prod.fst heq

theorem countOcc_flatMap_pairs (tps : List (String × ℚ)) (x y : String × ℚ)
    (hcy : countOcc y (tps.filter (fun p2 => strLt x.1 p2.1)) = 1) :
    ∀ outer : List (String × ℚ),
      countOcc (x, y) (outer.flatMap (fun p1 => (tps.filter (fun p2 => strLt p1.1 p2.1)).map
        (fun p2 => (p1, p2)))) = countOcc x outer
  | [] => rfl
  | a :: t => by
      rw [List.flatMap_cons, countOcc_append, countOcc_flatMap_pairs tps x y hcy t]
      by_cases hax : a = x
      · subst hax
        have hinj : Function.Injective (fun p2 : String × ℚ => (a, p2)) := by
          intro u v huv
          simpa using huv
        have hm : countOcc (a, y) ((tps.filter (fun p2 => strLt a.1 p2.1)).map
            (fun p2 => (a, p2))) = countOcc y (tps.filter (fun p2 => strLt a.1 p2.1)) :=
          countOcc_map_inj _ hinj y _
        simp [countOcc, hm, hcy]
      · rw [countOcc_map_pair_eq_zero a x y hax]
        simp only [countOcc, if_neg hax, Nat.zero_add]

/-- Claim C6: check 1 appends a finding exactly for the qualifying visited
pairs (larger average above 0.90 and absolute gap above 0.20), in visit
order; under distinct category names every unordered pair of distinct
entries is visited exactly once, in its unique `type1 < type2` orientation;
and a pair is visited precisely when both entries are present and so
oriented. -/
theorem cross_category_gap_c6 (tps : List (String × ℚ)) :
    gapFindings tps =
      ((visitedGapPairs tps).filter (fun pr => qualifiesGap pr.1 pr.2)).map
        (fun pr => gapMsg pr.1 pr.2) ∧
    ((tps.map Prod.fst).Nodup →
      (∀ x y, x ∈ tps → y ∈ tps → strLt x.1 y.1 = true →
        countOcc (x, y) (visitedGapPairs tps) = 1) ∧
      (∀ x y, x ∈ tps → y ∈ tps → x ≠ y →
        (strLt x.1 y.1 = true ∨ strLt y.1 x.1 = true))) ∧
    (∀ pr : (String × ℚ) × (String × ℚ), pr ∈ visitedGapPairs tps ↔
      (pr.1 ∈ tps ∧ pr.2 ∈ tps ∧ strLt pr.1.1 pr.2.1 = true)) := by
  refine ⟨?_, ?_, ?_⟩
  · by_cases hlen : 2 ≤ tps.length
    · unfold gapFindings visitedGapPairs
      rw [if_pos hlen]
      exact gapFindings_struct_aux tps tps
    · unfold gapFindings
      rw [if_neg hlen, visitedGapPairs_nil_of_short tps hlen]
      rfl
  · intro hnd
    constructor
    · intro x y hx hy hlt
      have hent : tps.Nodup := hnd.of_map
      have hcy : countOcc y (tps.filter (fun p2 => strLt x.1 p2.1)) = 1 :=
        countOcc_nodup_mem (hent.filter _) (List.mem_filter.mpr ⟨hy, hlt⟩)
      unfold visitedGapPairs
      rw [countOcc_flatMap_pairs tps x y hcy tps]
      exact countOcc_nodup_mem hent hx
    · intro x y hx hy hne
      have hn : x.1 ≠ y.1 := by
        intro heq
        exact hne (List.inj_on_of_nodup_map hnd hx hy heq)
      exact strLt_total_of_ne x.1 y.1 hn
  · intro pr
    constructor
    · intro hmem
      unfold visitedGapPairs at hmem
      obtain ⟨p1, hp1, hin⟩ := List.mem_flatMap.mp hmem
      obtain ⟨p2, hp2f, heq⟩ := List.mem_map.mp hin
      obtain ⟨hp2, hlt⟩ := List.mem_filter.mp hp2f
      rw [← heq]
      exact ⟨hp1, hp2, hlt⟩
    · intro ⟨h1, h2, h3⟩
      unfold visitedGapPairs
      apply List.mem_flatMap.mpr
      refine ⟨pr.1, h1, ?_⟩
      apply List.mem_map.mpr
      exact ⟨pr.2, List.mem_filter.mpr ⟨h2, h3⟩, rfl⟩

/-- Witness for C6: categories `Exam` (average 1.0) and `HW` (average 0.50);
the unordered pair qualifies (max 1.0 > 0.90, gap 0.50 > 0.20), is visited
exactly once, and yields exactly one finding. -/
theorem cross_category_gap_c6_witness :
    (([("Exam", (1 : ℚ)), ("HW", (1 : ℚ)/2)].map Prod.fst).Nodup) ∧
    (("Exam", (1 : ℚ)) ∈ [("Exam", (1 : ℚ)), ("HW", (1 : ℚ)/2)]) ∧
    (("HW", (1 : ℚ)/2) ∈ [("Exam", (1 : ℚ)), ("HW", (1 : ℚ)/2)]) ∧
    (strLt "Exam" "HW" = true) ∧
    (countOcc (("Exam", (1 : ℚ)), ("HW", (1 : ℚ)/2))
      (visitedGapPairs [("Exam", (1 : ℚ)), ("HW", (1 : ℚ)/2)]) = 1) ∧
    (gapFindings [("Exam", (1 : ℚ)), ("HW", (1 : ℚ)/2)] =
      [gapMsg ("Exam", (1 : ℚ)) ("HW", (1 : ℚ)/2)]) :=
  ⟨by with_unfolding_all decide, by with_unfolding_all decide, by with_unfolding_all decide,
   by with_unfolding_all decide,
   ((cross_category_gap_c6 [("Exam", (1 : ℚ)), ("HW", (1 : ℚ)/2)]).2.1
     (by with_unfolding_all decide)).1 ("Exam", (1 : ℚ)) ("HW", (1 : ℚ)/2)
     (by with_unfolding_all decide) (by with_unfolding_all decide)
     (by with_unfolding_all decide),
   by with_unfolding_all decide⟩

theorem avgsFor_map_addAnomalies (t : String) (st : List (String × ℚ × ℚ))
    (P : List ProcessedStudent) :
    avgsFor t (P.map (addAnomalies st)) = avgsFor t P := by
  unfold avgsFor
  rw [List.filterMap_map]
  rfl

theorem classTypeStats_map_addAnomalies (cfg : GradeConfiguration)
    (st : List (String × ℚ × ℚ)) (P : List ProcessedStudent) :
    classTypeStats cfg (P.map (addAnomalies st)) = classTypeStats cfg P := by
  unfold classTypeStats
  simp only [avgsFor_map_addAnomalies]

theorem detectAnomalies_anomalies (cfg : GradeConfiguration) (P : List ProcessedStudent)
    (hbase : ∀ p ∈ P, p.anomalies = []) :
    ∀ s ∈ detectAnomalies cfg P,
      s.anomalies = gapFindings (typePercentages s.grade_types) ++
        varianceFindings s.grade_types ++
        outlierFindings (classTypeStats cfg (detectAnomalies cfg P)) s.grade_types := by
  intro s hs
  unfold detectAnomalies at hs
  obtain ⟨s0, hs0, heq⟩ := List.mem_map.mp hs
  have hgt : s.grade_types = s0.grade_types := by rw [← heq]; rfl
  have han : s.anomalies = s0.anomalies ++ (gapFindings (typePercentages s0.grade_types) ++
      varianceFindings s0.grade_types ++
      outlierFindings (classTypeStats cfg P) s0.grade_types) := by
    rw [← heq]
    simp [addAnomalies]
  rw [han, hbase s0 hs0, List.nil_append, hgt]
  unfold detectAnomalies
  rw [classTypeStats_map_addAnomalies]

/-- Claim C7: the run is a pure function of its inputs — two runs over the
same gradebook, configuration, drop rules and scales produce the same
`ProcessedStudent` collection — and with anomaly detection enabled every
produced student's anomaly list is exactly the cross-category gap findings,
then the variance findings, then the class-relative outlier findings, in
that order. -/
theorem deterministic_ordered_run_c7 (gb : Gradebook) (cfg : GradeConfiguration)
    (a2t : List (Nat × String)) (dropLowest : List (String × Nat)) (onlyGraded : Bool)
    (scale : List (ℚ × String)) (mscale : Option (List (ℚ × String))) :
    processGrades gb cfg a2t dropLowest onlyGraded true scale mscale =
      processGrades gb cfg a2t dropLowest onlyGraded true scale mscale ∧
    ∀ s ∈ processGrades gb cfg a2t dropLowest onlyGraded true scale mscale,
      s.anomalies =
        gapFindings (typePercentages s.grade_types) ++ varianceFindings s.grade_types ++
          outlierFindings
            (classTypeStats cfg
              (processGrades gb cfg a2t dropLowest onlyGraded true scale mscale))
            s.grade_types := by
  have hpg : processGrades gb cfg a2t dropLowest onlyGraded true scale mscale =
      detectAnomalies cfg ((gb.students.filter (fun st => !isTestStudent st.name)).map
        (processStudent gb cfg dropLowest
          (if onlyGraded then some (weightNormalization cfg
            (if onlyGraded then identifyGradedAssignments gb else gb.assignments.map Prod.fst)
            a2t) else none)
          (if onlyGraded then identifyGradedAssignments gb else gb.assignments.map Prod.fst)
          a2t scale mscale)) := rfl
  refine ⟨rfl, ?_⟩
  rw [hpg]
  apply detectAnomalies_anomalies
  intro p hp
  obtain ⟨stu, _, heq⟩ := List.mem_map.mp hp
  rw [← heq]
  rfl

/-- Witness for C7: the gap-triggering gradebook run — the sole student's
anomaly list consists of exactly the one cross-category finding followed by
the (empty) variance and outlier findings, in the stated order. -/
theorem deterministic_ordered_run_c7_witness :
    (((processGrades gbGap cfgFortySixty a2tFortySixty [] true true sampleScale none).headD
        blankStudent) ∈
      processGrades gbGap cfgFortySixty a2tFortySixty [] true true sampleScale none) ∧
    (((processGrades gbGap cfgFortySixty a2tFortySixty [] true true sampleScale none).headD
        blankStudent).anomalies =
      gapFindings (typePercentages (((processGrades gbGap cfgFortySixty a2tFortySixty [] true
          true sampleScale none).headD blankStudent).grade_types)) ++
        varianceFindings (((processGrades gbGap cfgFortySixty a2tFortySixty [] true true
          sampleScale none).headD blankStudent).grade_types) ++
        outlierFindings
          (classTypeStats cfgFortySixty
            (processGrades gbGap cfgFortySixty a2tFortySixty [] true true sampleScale none))
          (((processGrades gbGap cfgFortySixty a2tFortySixty [] true true sampleScale
            none).headD blankStudent).grade_types)) ∧
    ((((processGrades gbGap cfgFortySixty a2tFortySixty [] true true sampleScale none).headD
        blankStudent).anomalies).length = 1) :=
  ⟨by with_unfolding_all decide,
   (deterministic_ordered_run_c7 gbGap cfgFortySixty a2tFortySixty [] true sampleScale
      none).2 _ (by with_unfolding_all decide),
   by with_unfolding_all decide⟩

/-- Claim C8: a student whose display name matches the test pattern (truthy
name containing `Perfect` or `Test Student`) is skipped before per-student
processing: no record with their id appears in the output (so they receive
no anomaly findings), and the output has exactly one record per non-test
student, so class-wide anomaly statistics are computed from non-test
students only. -/
theorem test_students_skipped_c8 (gb : Gradebook) (cfg : GradeConfiguration)
    (a2t : List (Nat × String)) (dropLowest : List (String × Nat)) (onlyGraded detect : Bool)
    (scale : List (ℚ × String)) (mscale : Option (List (ℚ × String)))
    (stu : StudentSummary) (hmem : stu ∈ gb.students)
    (htest : isTestStudent stu.name = true)
    (hids : (gb.students.map StudentSummary.id).Nodup) :
    (∀ p ∈ processGrades gb cfg a2t dropLowest onlyGraded detect scale mscale,
      p.user_id ≠ stu.id) ∧
    (processGrades gb cfg a2t dropLowest onlyGraded detect scale mscale).length =
      (gb.students.filter (fun s => !isTestStudent s.name)).length := by
  have hrfl : processGrades gb cfg a2t dropLowest onlyGraded detect scale mscale =
      (if detect then
        detectAnomalies cfg ((gb.students.filter (fun st => !isTestStudent st.name)).map
          (processStudent gb cfg dropLowest
            (if onlyGraded then some (weightNormalization cfg
              (if onlyGraded then identifyGradedAssignments gb else gb.assignments.map Prod.fst)
              a2t) else none)
            (if onlyGraded then identifyGradedAssignments gb else gb.assignments.map Prod.fst)
            a2t scale mscale))
      else ((gb.students.filter (fun st => !isTestStudent st.name)).map
          (processStudent gb cfg dropLowest
            (if onlyGraded then some (weightNormalization cfg
              (if onlyGraded then identifyGradedAssignments gb else gb.assignments.map Prod.fst)
              a2t) else none)
            (if onlyGraded then identifyGradedAssignments gb else gb.assignments.map Prod.fst)
            a2t scale mscale))) := rfl
  constructor
  · intro p hp
    have hp' : ∃ s', s' ∈ gb.students.filter (fun st => !isTestStudent st.name) ∧
        p.user_id = s'.id := by
      rw [hrfl] at hp
      cases detect with
      | true =>
          rw [if_pos rfl] at hp
          unfold detectAnomalies at hp
          obtain ⟨p0, hp0, heqp⟩ := List.mem_map.mp hp
          obtain ⟨s', hs', heq0⟩ := List.mem_map.mp hp0
          refine ⟨s', hs', ?_⟩
          rw [← heqp, ← heq0]
          rfl
      | false =>
          rw [if_neg (by simp)] at hp
          obtain ⟨s', hs', heq0⟩ := List.mem_map.mp hp
          refine ⟨s', hs', ?_⟩
          rw [← heq0]
          rfl
    obtain ⟨s', hs', hid⟩ := hp'
    obtain ⟨hsmem, hsnt⟩ := List.mem_filter.mp hs'
    intro hcontra
    have hsid : s'.id = stu.id := by rw [← hid, hcontra]
    have hseq : s' = stu := List.inj_on_of_nodup_map hids hsmem hmem hsid
    rw [hseq, htest] at hsnt
    simp at hsnt
  · rw [hrfl]
    cases detect with
    | true =>
        rw [if_pos rfl]
        unfold detectAnomalies
        rw [List.length_map, List.length_map]
    | false =>
        rw [if_neg (by simp)]
        rw [List.length_map]

/-- Witness for C8: a gradebook containing the `Perfect Student` test account
(id 7) and a real student (id 5); the full run yields exactly the record for
student 5 and none for the test account. -/
theorem test_students_skipped_c8_witness :
    (perfectStudent ∈ gbWithTestAccount.students) ∧
    (isTestStudent perfectStudent.name = true) ∧
    ((gbWithTestAccount.students.map StudentSummary.id).Nodup) ∧
    (∀ p ∈ processGrades gbWithTestAccount cfgFortySixty a2tFortySixty [] true true
        sampleScale none, p.user_id ≠ perfectStudent.id) ∧
    ((processGrades gbWithTestAccount cfgFortySixty a2tFortySixty [] true true sampleScale
        none).map (fun p => p.user_id) = [5]) :=
  ⟨by with_unfolding_all decide, by with_unfolding_all decide, by with_unfolding_all decide,
   (test_students_skipped_c8 gbWithTestAccount cfgFortySixty a2tFortySixty [] true true
      sampleScale none perfectStudent (by with_unfolding_all decide)
      (by with_unfolding_all decide) (by with_unfolding_all decide)).1,
   by with_unfolding_all decide⟩

theorem lookupKey_append_left_none {κ α : Type} [DecidableEq κ] (k : κ) :
    ∀ (xs ys : List (κ × α)), k ∉ xs.map Prod.fst →
      lookupKey k (xs ++ ys) = lookupKey k ys
  | [], _, _ => rfl
  | p :: xs, ys, h => by
      have hpk : ¬ p.1 = k := fun hh => h (by simp [hh])
      simp only [List.cons_append, lookupKey, if_neg hpk]
      exact lookupKey_append_left_none k xs ys (fun hm => h (List.mem_cons_of_mem _ hm))

theorem lookupKey_eq_none {κ α : Type} [DecidableEq κ] (k : κ) :
    ∀ l : List (κ × α), k ∉ l.map Prod.fst → lookupKey k l = none
  | [], _ => rfl
  | p :: xs, h => by
      have hpk : ¬ p.1 = k := fun hh => h (by simp [hh])
      simp only [lookupKey, if_neg hpk]
      exact lookupKey_eq_none k xs (fun hm => h (List.mem_cons_of_mem _ hm))

theorem lookupKey_middle_ne {κ α : Type} [DecidableEq κ] (k k' : κ) (v : α) (hne : ¬ k' = k) :
    ∀ (xs ys : List (κ × α)),
      lookupKey k (xs ++ (k', v) :: ys) = lookupKey k (xs ++ ys)
  | [], ys => by simp only [List.nil_append, lookupKey, if_neg hne]
  | p :: xs, ys => by
      simp only [List.cons_append, lookupKey, List.append_eq]
      rw [lookupKey_middle_ne k k' v hne xs ys]


theorem processGrades_one_student_congr
    (assignments : List (Nat × Assignment)) (spre spost : List StudentSummary)
    (s1 s2 : StudentSummary) (cfg : GradeConfiguration) (a2t : List (Nat × String))
    (dropLowest : List (String × Nat)) (onlyGraded detect : Bool)
    (scale : List (ℚ × String)) (mscale : Option (List (ℚ × String)))
    (hid : identifyGradedAssignments ⟨assignments, spre ++ s1 :: spost⟩ =
      identifyGradedAssignments ⟨assignments, spre ++ s2 :: spost⟩)
    (hidf : s1.id = s2.id) (hnmf : s1.name = s2.name) (hlgf : s1.login = s2.login)
    (hemf : s1.email = s2.email)
    (hcnt : ∀ g : List Nat, countedScores g a2t s1.scores = countedScores g a2t s2.scores) :
    processGrades ⟨assignments, spre ++ s1 :: spost⟩ cfg a2t dropLowest onlyGraded detect
      scale mscale =
    processGrades ⟨assignments, spre ++ s2 :: spost⟩ cfg a2t dropLowest onlyGraded detect
      scale mscale := by
  have hG : (if onlyGraded then
        identifyGradedAssignments (⟨assignments, spre ++ s1 :: spost⟩ : Gradebook)
      else assignments.map Prod.fst) =
      (if onlyGraded then
        identifyGradedAssignments (⟨assignments, spre ++ s2 :: spost⟩ : Gradebook)
      else assignments.map Prod.fst) := by
    cases onlyGraded
    · rfl
    · exact hid
  have hfe : ∀ (nf : Option ℚ) (g : List Nat),
      processStudent ⟨assignments, spre ++ s1 :: spost⟩ cfg dropLowest nf g a2t scale mscale =
      processStudent ⟨assignments, spre ++ s2 :: spost⟩ cfg dropLowest nf g a2t scale mscale :=
    fun _ _ => rfl
  have hps : ∀ (nf : Option ℚ) (g : List Nat),
      processStudent ⟨assignments, spre ++ s2 :: spost⟩ cfg dropLowest nf g a2t scale mscale s1 =
      processStudent ⟨assignments, spre ++ s2 :: spost⟩ cfg dropLowest nf g a2t scale mscale s2 := by
    intro nf g
    show processStudentFrom assignments cfg dropLowest nf a2t scale mscale s1.id s1.name
        s1.login s1.email (countedScores g a2t s1.scores) =
      processStudentFrom assignments cfg dropLowest nf a2t scale mscale s2.id s2.name
        s2.login s2.email (countedScores g a2t s2.scores)
    rw [hidf, hnmf, hlgf, hemf, hcnt g]
  have hP : ∀ (nf : Option ℚ) (g : List Nat),
      ((spre ++ s1 :: spost).filter (fun st => !isTestStudent st.name)).map
        (processStudent ⟨assignments, spre ++ s1 :: spost⟩ cfg dropLowest nf g a2t scale
          mscale) =
      ((spre ++ s2 :: spost).filter (fun st => !isTestStudent st.name)).map
        (processStudent ⟨assignments, spre ++ s2 :: spost⟩ cfg dropLowest nf g a2t scale
          mscale) := by
    intro nf g
    rw [hfe nf g]
    simp only [List.filter_append, List.filter_cons]
    rw [hnmf]
    by_cases hT : (!isTestStudent s2.name) = true
    · rw [if_pos hT, if_pos hT]
      rw [List.map_append, List.map_append, List.map_cons, List.map_cons, hps nf g]
    · rw [if_neg hT, if_neg hT]
  have hrfl1 : processGrades ⟨assignments, spre ++ s1 :: spost⟩ cfg a2t dropLowest onlyGraded
      detect scale mscale =
      (if detect then
        detectAnomalies cfg (((spre ++ s1 :: spost).filter
            (fun st => !isTestStudent st.name)).map
          (processStudent ⟨assignments, spre ++ s1 :: spost⟩ cfg dropLowest
            (if onlyGraded then some (weightNormalization cfg
              (if onlyGraded then
                identifyGradedAssignments (⟨assignments, spre ++ s1 :: spost⟩ : Gradebook)
              else assignments.map Prod.fst) a2t) else none)
            (if onlyGraded then
              identifyGradedAssignments (⟨assignments, spre ++ s1 :: spost⟩ : Gradebook)
            else assignments.map Prod.fst) a2t scale mscale))
      else (((spre ++ s1 :: spost).filter (fun st => !isTestStudent st.name)).map
          (processStudent ⟨assignments, spre ++ s1 :: spost⟩ cfg dropLowest
            (if onlyGraded then some (weightNormalization cfg
              (if onlyGraded then
                identifyGradedAssignments (⟨assignments, spre ++ s1 :: spost⟩ : Gradebook)
              else assignments.map Prod.fst) a2t) else none)
            (if onlyGraded then
              identifyGradedAssignments (⟨assignments, spre ++ s1 :: spost⟩ : Gradebook)
            else assignments.map Prod.fst) a2t scale mscale))) := rfl
  have hrfl2 : processGrades ⟨assignments, spre ++ s2 :: spost⟩ cfg a2t dropLowest onlyGraded
      detect scale mscale =
      (if detect then
        detectAnomalies cfg (((spre ++ s2 :: spost).filter
            (fun st => !isTestStudent st.name)).map
          (processStudent ⟨assignments, spre ++ s2 :: spost⟩ cfg dropLowest
            (if onlyGraded then some (weightNormalization cfg
              (if onlyGraded then
                identifyGradedAssignments (⟨assignments, spre ++ s2 :: spost⟩ : Gradebook)
              else assignments.map Prod.fst) a2t) else none)
            (if onlyGraded then
              identifyGradedAssignments (⟨assignments, spre ++ s2 :: spost⟩ : Gradebook)
            else assignments.map Prod.fst) a2t scale mscale))
      else (((spre ++ s2 :: spost).filter (fun st => !isTestStudent st.name)).map
          (processStudent ⟨assignments, spre ++ s2 :: spost⟩ cfg dropLowest
            (if onlyGraded then some (weightNormalization cfg
              (if onlyGraded then
                identifyGradedAssignments (⟨assignments, spre ++ s2 :: spost⟩ : Gradebook)
              else assignments.map Prod.fst) a2t) else none)
            (if onlyGraded then
              identifyGradedAssignments (⟨assignments, spre ++ s2 :: spost⟩ : Gradebook)
            else assignments.map Prod.fst) a2t scale mscale))) := rfl
  rw [hrfl1, hrfl2, hG, hP]

/-- Claim C5: a score record marked excused contributes to neither numerator
nor denominator at any stage, in either processing mode: deleting it from
the student's score dict leaves the graded-assignment identification, every
category average and count, and every student's final, normalized and letter
grades — the entire run output — unchanged. -/
theorem excused_invisible_c5
    (assignments : List (Nat × Assignment)) (spre spost : List StudentSummary)
    (uid : Nat) (nm lg em : Option String) (ts tp : ℚ)
    (pre post : List (Nat × StudentScore)) (aid : Nat) (sc : StudentScore)
    (cfg : GradeConfiguration) (a2t : List (Nat × String))
    (dropLowest : List (String × Nat)) (onlyGraded detect : Bool)
    (scale : List (ℚ × String)) (mscale : Option (List (ℚ × String)))
    (hexc : sc.excused = true)
    (hnd : ((pre ++ (aid, sc) :: post).map Prod.fst).Nodup) :
    processGrades
      { assignments := assignments
        students := spre ++
          { id := uid, name := nm, login := lg, email := em
            scores := pre ++ (aid, sc) :: post, total_score := ts, total_points := tp } :: spost }
      cfg a2t dropLowest onlyGraded detect scale mscale =
    processGrades
      { assignments := assignments
        students := spre ++
          { id := uid, name := nm, login := lg, email := em
            scores := pre ++ post, total_score := ts, total_points := tp } :: spost }
      cfg a2t dropLowest onlyGraded detect scale mscale := by
  have hndk : (pre.map Prod.fst ++ aid :: post.map Prod.fst).Nodup := by
    simpa using hnd
  have hpre : aid ∉ pre.map Prod.fst := by
    have hdisj := (List.nodup_append.mp hndk).2.2
    intro hm
    exact hdisj hm (List.mem_cons_self aid _)
  have hpost : aid ∉ post.map Prod.fst := by
    have hmid := (List.nodup_append.mp hndk).2.1
    exact (List.nodup_cons.mp hmid).1
  have hlook : ∀ a : Nat,
      (a ≠ aid → lookupKey a (pre ++ (aid, sc) :: post) = lookupKey a (pre ++ post)) ∧
      (a = aid → lookupKey a (pre ++ (aid, sc) :: post) = some sc ∧
        lookupKey a (pre ++ post) = none) := by
    intro a
    constructor
    · intro hne
      exact lookupKey_middle_ne a aid sc (fun hh => hne hh.symm) pre post
    · intro heq
      subst heq
      constructor
      · rw [lookupKey_append_left_none a pre _ hpre]
        simp [lookupKey]
      · rw [lookupKey_append_left_none a pre _ hpre]
        exact lookupKey_eq_none a post hpost
  have hlookcase : ∀ a : Nat,
      lookupKey a (pre ++ (aid, sc) :: post) = lookupKey a (pre ++ post) ∨
      (lookupKey a (pre ++ (aid, sc) :: post) = some sc ∧
        lookupKey a (pre ++ post) = none) := by
    intro a
    by_cases ha : a = aid
    · exact Or.inr ((hlook a).2 ha)
    · exact Or.inl ((hlook a).1 ha)
  have hpred : ∀ a : Nat,
      (match lookupKey a (pre ++ (aid, sc) :: post) with
       | some sc0 => scoreCountsAsGraded sc0
       | none => false) =
      (match lookupKey a (pre ++ post) with
       | some sc0 => scoreCountsAsGraded sc0
       | none => false) := by
    intro a
    rcases hlookcase a with heq | ⟨h1, h2⟩
    · rw [heq]
    · rw [h1, h2]
      simp [scoreCountsAsGraded, hexc]
  have hid : identifyGradedAssignments
      { assignments := assignments
        students := spre ++
          { id := uid, name := nm, login := lg, email := em
            scores := pre ++ (aid, sc) :: post, total_score := ts, total_points := tp } :: spost } =
    identifyGradedAssignments
      { assignments := assignments
        students := spre ++
          { id := uid, name := nm, login := lg, email := em
            scores := pre ++ post, total_score := ts, total_points := tp } :: spost } := by
    unfold identifyGradedAssignments
    apply List.filter_congr
    intro a _
    show (spre ++ _ :: spost).any _ = (spre ++ _ :: spost).any _
    rw [List.any_append, List.any_append, List.any_cons, List.any_cons]
    congr 1
    congr 1
    exact hpred a
  have hcount : ∀ g : List Nat,
      countedScores g a2t (pre ++ (aid, sc) :: post) = countedScores g a2t (pre ++ post) := by
    intro g
    unfold countedScores
    rw [List.filter_append, List.filter_append, List.filter_cons,
      if_neg (by simp [hexc])]
  exact processGrades_one_student_congr assignments spre spost _ _ cfg a2t dropLowest
    onlyGraded detect scale mscale hid rfl rfl rfl rfl hcount

/-- Witness for C5: removing an excused exam record from the first student's
score dict leaves the whole graded-only run (with anomaly detection)
unchanged, and both students keep their normalized grades. -/
theorem excused_invisible_c5_witness :
    (excusedScore.excused = true) ∧
    ((([(1, nineOfTen)] ++ (2, excusedScore) :: []).map Prod.fst).Nodup) ∧
    (processGrades
        { assignments := [(1, { id := 1, name := "hw1", points_possible := some 10 }),
                          (2, { id := 2, name := "ex1", points_possible := some 10 })]
          students := [] ++
            { id := 5, name := some "Alice A", login := none, email := none
              scores := [(1, nineOfTen)] ++ (2, excusedScore) :: [], total_score := 0
              total_points := 0 } :: [bobStudent] }
        cfgFortySixty a2tFortySixty [] true true sampleScale none =
      processGrades
        { assignments := [(1, { id := 1, name := "hw1", points_possible := some 10 }),
                          (2, { id := 2, name := "ex1", points_possible := some 10 })]
          students := [] ++
            { id := 5, name := some "Alice A", login := none, email := none
              scores := [(1, nineOfTen)] ++ [], total_score := 0
              total_points := 0 } :: [bobStudent] }
        cfgFortySixty a2tFortySixty [] true true sampleScale none) ∧
    ((processGrades
        { assignments := [(1, { id := 1, name := "hw1", points_possible := some 10 }),
                          (2, { id := 2, name := "ex1", points_possible := some 10 })]
          students := [] ++
            { id := 5, name := some "Alice A", login := none, email := none
              scores := [(1, nineOfTen)] ++ (2, excusedScore) :: [], total_score := 0
              total_points := 0 } :: [bobStudent] }
        cfgFortySixty a2tFortySixty [] true true sampleScale none).map
          (fun s => (s.user_id, s.normalized_percentage)) = [(5, 9/10), (6, 4/5)]) :=
  ⟨by with_unfolding_all decide, by with_unfolding_all decide,
   excused_invisible_c5
     [(1, { id := 1, name := "hw1", points_possible := some 10 }),
      (2, { id := 2, name := "ex1", points_possible := some 10 })]
     [] [bobStudent] 5 (some "Alice A") none none 0 0
     [(1, nineOfTen)] [] 2 excusedScore cfgFortySixty a2tFortySixty [] true true
     sampleScale none (by with_unfolding_all decide) (by with_unfolding_all decide),
   by with_unfolding_all decide⟩
